import Mathlib

/-!
Verification of the CommitSmith pipeline execution and snapshot engine.

The development shallowly embeds `src/pipeline.ts` (the step runner, retry
controller, AI-fix attempt, decision resolution, and the dry-run snapshot
lifecycle) together with the Codex patch validator (`validateUnifiedDiff`
and `normalizeDiffPath` from the codex client module).

External effects (shell commands, the Codex HTTP service, the VS Code git
API, git plumbing processes and the file system) are modelled as oracles in
an `Env` record; every internal decision, string manipulation and control
path of the TypeScript source is embedded as executable Lean code.  Each
interpreter function returns the list of observable events it performed
(commands executed, patches applied, files staged, snapshot captured or
restored, decision callbacks invoked, log lines) paired with an `Except`
result mirroring the JavaScript promise resolution or rejection.
-/

/-! ### JavaScript-style string helpers (operating on the character list) -/

/-- Whitespace characters recognised by the JavaScript regex class
whitespace and by `String.prototype.trim` for the ASCII range used here. -/
def isJsWhitespace (c : Char) : Bool :=
  c == ' ' || c == '\t' || c == '\n' || c == '\r' ||
  c == '\x0b' || c == '\x0c'

/-- JavaScript `String.prototype.trim`. -/
def jsTrim (s : String) : String :=
  ⟨((s.data.dropWhile isJsWhitespace).reverse.dropWhile isJsWhitespace).reverse⟩

/-- JavaScript `String.prototype.startsWith`. -/
def strStartsWith (s pre : String) : Bool :=
  pre.data.isPrefixOf s.data

/-- JavaScript `String.prototype.endsWith`. -/
def strEndsWith (s suf : String) : Bool :=
  suf.data.isSuffixOf s.data

/-- Drop the first `n` characters (JavaScript `slice(n)`). -/
def strDrop (s : String) (n : Nat) : String :=
  ⟨s.data.drop n⟩

/-- Drop the last `n` characters (JavaScript `slice(0, -n)`). -/
def strDropRight (s : String) (n : Nat) : String :=
  ⟨s.data.take (s.data.length - n)⟩

/-- Boolean substring test on character lists. -/
def listIsInfix (sub : List Char) : List Char → Bool
  | [] => sub.isEmpty
  | c :: rest => sub.isPrefixOf (c :: rest) || listIsInfix sub rest

/-- JavaScript `String.prototype.includes` (substring containment). -/
def strContains (s sub : String) : Bool :=
  listIsInfix sub.data s.data

/-- Split a character list on one separator character, JavaScript
`split(sep)` semantics: the empty string yields one empty field, a
trailing separator yields a trailing empty field. -/
def splitOnCharAux (sep : Char) : List Char → List (List Char)
  | [] => [[]]
  | c :: rest =>
    if c == sep then [] :: splitOnCharAux sep rest
    else
      match splitOnCharAux sep rest with
      | h :: t => (c :: h) :: t
      | [] => [[c]]

/-- JavaScript `split('\n')`. -/
def splitLines (s : String) : List String :=
  (splitOnCharAux '\n' s.data).map (fun l => ⟨l⟩)

/-- Insertion-ordered deduplication, modelling a JavaScript `Set`
populated by successive `add` calls and read back with `Array.from`. -/
def dedupKeepFirst (l : List String) : List String :=
  l.foldl (fun acc x => if x ∈ acc then acc else acc ++ [x]) []

/-! ### Data model (pipeline.ts type declarations) -/

/-- The three fixed pipeline step identifiers. -/
inductive PipelineStepId where
  | format
  | typecheck
  | tests
deriving DecidableEq, Repr

/-- The identifier as the string used in log lines and annotations. -/
def PipelineStepId.name : PipelineStepId → String
  | .format => "format"
  | .typecheck => "typecheck"
  | .tests => "tests"

/-- `STEP_LABELS` from the source. -/
def formatStepLabel : PipelineStepId → String
  | .format => "FORMAT"
  | .typecheck => "TYPECHECK"
  | .tests => "TESTS"

/-- `PipelineMode`: `execute` or `dry-run`. -/
inductive PipelineMode where
  | execute
  | dryRun
deriving DecidableEq, Repr

/-- `PipelineDecision` returned by the decision resolver hook. -/
inductive PipelineDecision where
  | commitAnyway
  | retry
  | abort
deriving DecidableEq, Repr

/-- `StepResult`: one command execution's captured outcome. -/
structure StepResult where
  step : PipelineStepId
  success : Bool
  stdout : String
  stderr : String
  attempt : Nat
deriving DecidableEq, Repr

/-- `PipelineDecisionEvent` passed to the decision resolver. -/
structure PipelineDecisionEvent where
  step : PipelineStepId
  stderr : String
  attempts : Nat
  commitAnnotation : String
  suppressAutoPush : Bool
deriving DecidableEq, Repr

/-- The status component of `PipelineOutcome`. -/
inductive PipelineStatus where
  | completed
  | aborted
  | commitAnyway
  | skipped
deriving DecidableEq, Repr

/-- `PipelineOutcome`: the terminal caller-visible result. -/
structure PipelineOutcome where
  status : PipelineStatus
  failedStep : Option PipelineStepId := none
  commitAnnotation : Option String := none
  suppressAutoPush : Bool
deriving DecidableEq, Repr

/-- `StepDefinition` built by `buildStepDefinitions`. -/
structure StepDefinition where
  id : PipelineStepId
  command : String
  dryRunSkipReason : Option String := none
deriving DecidableEq, Repr

/-- Optional metadata attached to an AI patch. -/
structure AIPatchMeta where
  producedBy : Option String := none
  step : Option PipelineStepId := none
  note : Option String := none
deriving DecidableEq, Repr

/-- `AIPatch` (the `kind` tag is always the literal `unified-diff` and is
therefore left implicit). -/
structure AIPatch where
  diff : String
  meta : Option AIPatchMeta := none
deriving DecidableEq, Repr

/-- `FixContext` sent to the Codex fix endpoint (the optional
`codeSnippet` field is never populated by the pipeline and is omitted). -/
structure FixContext where
  filePath : String
  errorMessage : String
  step : PipelineStepId
deriving DecidableEq, Repr

/-- `DryRunPatchInfo` forwarded to the dry-run patch capture callback. -/
structure DryRunPatchInfo where
  step : PipelineStepId
  files : List String
  diff : String
  meta : Option AIPatchMeta := none
deriving DecidableEq, Repr

/-- `RepoSnapshot` as held by `runPipeline` (patch texts plus path lists;
the optional side-copy directory path). -/
structure RepoSnapshot where
  stagedPatch : String
  unstagedPatch : String
  untrackedFiles : List String
  untrackedDirs : List String
  emptyDirs : List String
  untrackedDir : Option String := none
deriving DecidableEq, Repr

/-- The configuration slice consumed by the pipeline (`getConfig`). -/
structure PipelineConfig where
  pipelineEnable : Bool
  pipelineMaxAiFixAttempts : Nat
  pipelineAbortOnFailure : Bool
  formatCommand : String
  typecheckCommand : String
  testsCommand : String
deriving Repr

/-- Outcome of one external command execution as observed by
`executeStep`: spawn failures and non-zero exits both surface as
`success := false` with the message captured in `stderr`. -/
structure ExecOutcome where
  success : Bool
  stdout : String
  stderr : String
deriving DecidableEq, Repr

/-- The Codex `/fix` endpoint's JSON response body. -/
structure FixResponse where
  diff : String
  meta : Option AIPatchMeta := none
deriving DecidableEq, Repr

/-! ### Observable events and the effect carrier -/

/-- An observable side effect of one pipeline run.  `execCmd` records each
invocation of `executeStep` (one shell command execution); `gitApplyCheck`
and `gitApply` record the two `git apply` process invocations of
`applyPatch`; `stageFiles` records a `stageModified` call; `dryRunPatch`
records an invocation of the dry-run patch capture callback;
`decisionRequested` records a call to the `onDecisionRequired` hook;
`snapshotCaptured` and `restoreInvoked` record a successful
`captureRepoSnapshot` and an invocation of `restoreRepoSnapshot`. -/
inductive Event where
  | logMsg (message : String)
  | stepStart (step : PipelineStepId) (attempt : Nat)
  | stepComplete (result : StepResult)
  | execCmd (step : PipelineStepId) (command : String) (attempt : Nat)
  | decisionRequested (event : PipelineDecisionEvent)
  | dryRunPatch (info : DryRunPatchInfo)
  | gitApplyCheck (diff : String)
  | gitApply (diff : String)
  | stageFiles (files : List String)
  | snapshotCaptured (snap : RepoSnapshot)
  | restoreInvoked (snap : RepoSnapshot)
deriving DecidableEq, Repr

/-- Errors that can escape `runPipeline` (promise rejections). -/
inductive PErr where
  | ignoreRead
  | captureFailed
  | restoreFailed
  | stageFailed
deriving DecidableEq, Repr

/-- An effectful computation: the events it emitted, in order, paired
with its result (`Except.error` models a thrown/rejected error). -/
def Run (ε α : Type) : Type := List Event × Except ε α

/-- The world the pipeline runs against: the configuration, the
invocation mode, and one oracle per external collaborator.  Oracles are
deterministic functions of the data the source code hands them. -/
structure Env where
  config : PipelineConfig
  mode : PipelineMode
  /-- Shell execution: outcome of running the given step's command on the
  given attempt number (`executeStep` call sites are uniquely keyed by
  step id and attempt within one run). -/
  exec : PipelineStepId → Nat → ExecOutcome
  /-- Script names found in `package.json` (`getPackageScripts`, which
  swallows all read/parse errors and returns a possibly empty set). -/
  packageScripts : List String
  /-- Content of `.commit-smith-ignore`: `.ok none` models ENOENT,
  `.ok (some s)` a successful read, `.error` any other read failure. -/
  ignoreFile : Except Unit (Option String)
  /-- The Codex `/fix` HTTP call (`postJson`); an error carries the
  thrown message. -/
  postFix : FixContext → Except String FixResponse
  /-- The external `minimatch(file, pattern)` glob matcher. -/
  minimatchFn : String → String → Bool
  /-- `git status --porcelain` stdout for `listChangedFiles` (which
  swallows errors). -/
  gitStatusStdout : Except Unit String
  /-- Whether `git apply --check --whitespace=nowarn -` accepts a diff. -/
  gitApplyCheckOk : String → Bool
  /-- Whether the real `git apply --whitespace=nowarn -` succeeds. -/
  gitApplyOk : String → Bool
  /-- Whether `stageModified` (the VS Code git `add`) succeeds. -/
  stageOk : Bool
  /-- The `onDecisionRequired` hook: absent, or a callback that may
  itself throw. -/
  onDecisionRequired : Option (PipelineDecisionEvent → Except Unit PipelineDecision)
  /-- The `onDryRunPatch` capture callback: absent, or may throw. -/
  onDryRunPatch : Option (DryRunPatchInfo → Except Unit Unit)
  /-- Result of `captureRepoSnapshot` when invoked. -/
  captureOutcome : Except Unit RepoSnapshot
  /-- Whether `restoreRepoSnapshot` completes without a git/fs error. -/
  restoreOk : Bool

/-! ### Pattern helpers embedded from the source's regular expressions -/

/-- One line matched against `/^\+\+\+\s+b\/(.+)$/` (or the `---`/`a/`
variant): the three marker characters, at least one whitespace character,
the tag character and a slash, then a non-empty remainder which is the
captured file path. -/
def matchPatchHeader (m tag : Char) (line : String) : Option String :=
  match line.data with
  | c1 :: c2 :: c3 :: rest =>
    if c1 == m && c2 == m && c3 == m then
      let ws := rest.takeWhile isJsWhitespace
      if ws.length == 0 then none
      else
        match rest.drop ws.length with
        | t :: s :: fileChars =>
          if t == tag && s == '/' && !fileChars.isEmpty then some ⟨fileChars⟩
          else none
        | _ => none
    else none
  | _ => none

/-- `extractPatchedFiles`: collect every `+++ b/<file>` capture, then
every `--- a/<file>` capture, skipping the `/dev/null` sentinel, into an
insertion-ordered set. -/
def extractPatchedFiles (diff : String) : List String :=
  let ls := splitLines diff
  let adds := ls.filterMap (matchPatchHeader '+' 'b')
  let removes := ls.filterMap (matchPatchHeader '-' 'a')
  dedupKeepFirst ((adds ++ removes).filter (fun f => f != "/dev/null"))

/-- ASCII letter or digit, the JavaScript class `[a-zA-Z0-9]`. -/
def isAsciiAlnum (c : Char) : Bool :=
  c.isAlpha || c.isDigit

/-- Given the non-whitespace run following a whitespace character, find
the capture of `(\S+\.[a-zA-Z0-9]+)`: the last dot preceded by at least
one character and followed by a letter or digit, extended by the maximal
following alphanumeric run. -/
def findDotCapture (r : List Char) : Option (List Char) :=
  let valid := fun (p : Nat) =>
    decide (1 ≤ p) && (r.get? p == some '.') &&
      (match r.get? (p + 1) with
       | some d => isAsciiAlnum d
       | none => false)
  match ((List.range r.length).filter valid).getLast? with
  | some p => some (r.take p ++ '.' :: (r.drop (p + 1)).takeWhile isAsciiAlnum)
  | none => none

/-- Scan for the first whitespace position whose following
non-whitespace run admits a dot capture. -/
def scanLikelyFilePath : List Char → Option (List Char)
  | [] => none
  | c :: rest =>
    if isJsWhitespace c then
      match findDotCapture (rest.takeWhile (fun d => !isJsWhitespace d)) with
      | some cap => some cap
      | none => scanLikelyFilePath rest
    else scanLikelyFilePath rest

/-- `extractLikelyFilePath`: the first match of
`/\s(\S+\.[a-zA-Z0-9]+)/` against a stderr payload. -/
def extractLikelyFilePath (stderr : String) : Option String :=
  (scanLikelyFilePath stderr.data).map (fun l => ⟨l⟩)

/-! ### The Codex patch validator (codex module) -/

/-- The distinct error conditions thrown by `validateUnifiedDiff` and
`normalizeDiffPath`, tagged by their thrown message. -/
inductive ValidateErr where
  | emptyDiff
  | missingHeaders
  | badPathFormat
  | pathTraversal
deriving DecidableEq, Repr

/-- The thrown `Error` message corresponding to each validator failure. -/
def validateErrMessage : ValidateErr → String
  | .emptyDiff => "Codex returned an empty diff."
  | .missingHeaders => "Codex diff output is missing standard headers."
  | .badPathFormat =>
    "Codex diff must use repository-relative paths with a/ and b/ prefixes or /dev/null."
  | .pathTraversal =>
    "Codex diff paths must not contain parent directory traversals or absolute paths."

/-- The header regex `/^---\s+(?<from>\S+)\n\+\+\+\s+(?<to>\S+)/` of
`validateUnifiedDiff`.  The regex has no `m` flag, so `^` anchors at the
very start of the diff text, and no `g` flag, so only this first
`---`/`+++` pair is ever examined.  Because `\s` and `\S` are
complementary classes the greedy, non-backtracking reading implemented
here is exact. -/
def parseFirstHeader (diff : String) : Option (String × String) :=
  match diff.data with
  | '-' :: '-' :: '-' :: rest =>
    let ws1 := rest.takeWhile isJsWhitespace
    if ws1.isEmpty then none
    else
      let r1 := rest.drop ws1.length
      let fromC := r1.takeWhile (fun c => !isJsWhitespace c)
      if fromC.isEmpty then none
      else
        match r1.drop fromC.length with
        | '\n' :: '+' :: '+' :: '+' :: r2 =>
          let ws2 := r2.takeWhile isJsWhitespace
          if ws2.isEmpty then none
          else
            let r3 := r2.drop ws2.length
            let toC := r3.takeWhile (fun c => !isJsWhitespace c)
            if toC.isEmpty then none else some (⟨fromC⟩, ⟨toC⟩)
        | _ => none
  | _ => none

/-- Whether a character list starts with a slash (JavaScript
`startsWith('/')` on the sliced path part). -/
def pathHeadSlash : List Char → Bool
  | '/' :: _ => true
  | _ => false

/-- `normalizeDiffPath`: `/dev/null` yields no path info; otherwise the
value must start with the expected `a/` or `b/` tag (else a thrown
format error) and the remainder (`slice(2)`) is inspected for a `..`
substring and a leading slash. -/
def normalizeDiffPath (value : String) (expectedTag : Char) :
    Except ValidateErr (Option (Bool × Bool)) :=
  if value == "/dev/null" then .ok none
  else if strStartsWith value ⟨[expectedTag, '/']⟩ then
    .ok (some (listIsInfix ['.', '.'] (value.data.drop 2),
               pathHeadSlash (value.data.drop 2)))
  else .error .badPathFormat

/-- Whether a `normalizeDiffPath` result triggers the traversal check
(`containsTraversal || isAbsolute`, with `null` passing). -/
def pathInfoBad : Option (Bool × Bool) → Bool
  | none => false
  | some (tr, ab) => tr || ab

/-- One side of a diff header passes the validator: it is the
`/dev/null` sentinel, or it carries the expected `a/` or `b/` tag and
its path part neither contains `..` nor starts with a slash. -/
def diffSideOk (value : String) (tag : Char) : Bool :=
  value == "/dev/null" ||
  (strStartsWith value ⟨[tag, '/']⟩ &&
   !listIsInfix ['.', '.'] (value.data.drop 2) &&
   !pathHeadSlash (value.data.drop 2))

/-- `validateUnifiedDiff` from the codex module: empty diffs, missing
initial headers, non-`a/`-`b/` paths of the first header pair, and `..`
or absolute paths in that pair are rejected; anything else passes. -/
def validateUnifiedDiff (diff : String) : Except ValidateErr Unit :=
  if jsTrim diff == "" then .error .emptyDiff
  else
    match parseFirstHeader diff with
    | none => .error .missingHeaders
    | some (f, t) =>
      match normalizeDiffPath f 'a' with
      | .error e => .error e
      | .ok fromInfo =>
        match normalizeDiffPath t 'b' with
        | .error e => .error e
        | .ok toInfo =>
          if pathInfoBad fromInfo then .error .pathTraversal
          else if pathInfoBad toInfo then .error .pathTraversal
          else .ok ()

/-! ### The pipeline interpreter -/

/-- `readIgnorePatterns`: read `.commit-smith-ignore`, treat ENOENT as
the empty rule list, re-throw other errors, and keep the trimmed,
non-empty, non-comment lines. -/
def readIgnorePatterns (env : Env) : Run PErr (List String) :=
  match env.ignoreFile with
  | .error _ => ([], .error .ignoreRead)
  | .ok none => ([], .ok [])
  | .ok (some content) =>
    ([], .ok (((splitLines content).map jsTrim).filter
      (fun l => l != "" && !strStartsWith l "#")))

/-- The result record of `translateFormatCommandForDryRun`. -/
structure TranslateResult where
  command : String
  skip : Bool
  reason : Option String := none
deriving DecidableEq, Repr

/-- `translateFormatCommandForDryRun`: only `npm run <script>` commands
can be translated; the first of `<base>:check`, `<base>check` (for
`:fix` scripts) and `<base>:dry-run` present in `package.json` scripts
wins, otherwise the step is skipped with a reason. -/
def translateFormatCommandForDryRun (command : String) (scripts : List String) :
    TranslateResult :=
  let trimmed := jsTrim command
  if !strStartsWith trimmed "npm run " then
    { command := "", skip := true,
      reason := some ("Cannot derive non-mutating variant for \"" ++ trimmed
        ++ "\" during dry run.") }
  else
    let script := strDrop trimmed 8
    let base := if strEndsWith script ":fix" then strDropRight script 4 else script
    let cand2 := if strEndsWith script ":fix" then strDropRight script 4 ++ "check" else ""
    let checkCandidates := ([base ++ ":check", cand2, base ++ ":dry-run"]).filter
      (fun s => s != "")
    match checkCandidates.find? (fun c => scripts.contains c) with
    | some candidate => { command := "npm run " ++ candidate, skip := false }
    | none =>
      { command := "", skip := true,
        reason := some ("No non-mutating variant found for \"" ++ trimmed ++ "\".") }

/-- `buildStepDefinitions`: the fixed `format`, `typecheck`, `tests`
sequence with per-mode commands; in dry-run mode the format command is
replaced by a derived non-mutating variant or skipped. -/
def buildStepDefinitions (env : Env) : List StepDefinition :=
  let cmdOf : PipelineStepId → String := fun id =>
    match id with
    | .format => env.config.formatCommand
    | .typecheck => env.config.typecheckCommand
    | .tests => env.config.testsCommand
  ([PipelineStepId.format, PipelineStepId.typecheck, PipelineStepId.tests]).map
    (fun id =>
      if env.mode != PipelineMode.dryRun then { id := id, command := cmdOf id }
      else if id == PipelineStepId.format then
        let result := translateFormatCommandForDryRun (cmdOf id) env.packageScripts
        if result.skip then
          { id := id, command := "",
            dryRunSkipReason := some (result.reason.getD
              ("Skipping mutating command \"" ++ cmdOf id ++ "\" during dry run.")) }
        else { id := id, command := result.command }
      else { id := id, command := cmdOf id })

/-- `executeStep`: run the step's command; the try/catch of the source
means this never throws, spawn failures arriving as `success = false`. -/
def executeStepRun (env : Env) (step : StepDefinition) (attempt : Nat) :
    List Event × StepResult :=
  let out := env.exec step.id attempt
  ([Event.execCmd step.id step.command attempt],
   { step := step.id, success := out.success, stdout := out.stdout,
     stderr := out.stderr, attempt := attempt })

/-- `isIgnored`: some configured glob pattern matches the file. -/
def isIgnored (file : String) (rules : List String)
    (mm : String → String → Bool) : Bool :=
  rules.any (fun pattern => mm file pattern)

/-- `applyPatch`: the check-only `git apply --check` invocation followed,
only on success, by the real `git apply`; a failure of either is a thrown
error. -/
def applyPatchRun (env : Env) (diff : String) : Run String Unit :=
  if env.gitApplyCheckOk diff then
    if env.gitApplyOk diff then
      ([Event.gitApplyCheck diff, Event.gitApply diff], .ok ())
    else ([Event.gitApplyCheck diff, Event.gitApply diff], .error "git apply failed")
  else ([Event.gitApplyCheck diff], .error "git apply --check failed")

/-- `stageModified` (utils/git): stage the given files via the VS Code
git API; failures are re-thrown after logging. -/
def stageModifiedRun (env : Env) (files : List String) : Run String Unit :=
  ([Event.stageFiles files],
   if env.stageOk then .ok () else .error "Failed to stage changes")

/-- `generateFix` from the codex module: POST the context, then validate
the returned diff; any failure is a thrown error with its message. -/
def generateFixRun (env : Env) (context : FixContext) : Except String AIPatch :=
  match env.postFix context with
  | .error msg => .error msg
  | .ok resp =>
    match validateUnifiedDiff resp.diff with
    | .error e => .error (validateErrMessage e)
    | .ok _ => .ok { diff := resp.diff, meta := resp.meta }

/-- The `FixContext` assembled by `attemptAiFix` from the failing step's
captured stderr. -/
def aiFixContext (result : StepResult) (step : PipelineStepId) : FixContext :=
  { filePath := (extractLikelyFilePath result.stderr).getD "unknown",
    errorMessage := result.stderr, step := step }

/-- `attemptAiFix`: request a fix, filter the touched files against the
ignore rules, and either capture the patch (dry-run) or apply and stage
it; the surrounding try/catch converts every thrown error into a logged
`false`, so this function is total. -/
def attemptAiFix (env : Env) (rules : List String) (step : PipelineStepId)
    (result : StepResult) : List Event × Bool :=
  let context : FixContext := aiFixContext result step
  let logStart := Event.logMsg ("[Codex] Attempting AI fix for " ++ step.name)
  match generateFixRun env context with
  | .error msg =>
    ([logStart, Event.logMsg ("[Codex] Fix attempt failed: " ++ msg)], false)
  | .ok patch =>
    let affectedFiles := extractPatchedFiles patch.diff
    let permittedFiles := affectedFiles.filter
      (fun file => !isIgnored file rules env.minimatchFn)
    if permittedFiles.length == 0 then
      ([logStart,
        Event.logMsg "[Codex] Patch only touched ignored files; skipping application"],
       false)
    else if permittedFiles.length != affectedFiles.length then
      ([logStart,
        Event.logMsg "[Codex] Patch includes ignored files; skipping application"],
       false)
    else if env.mode == PipelineMode.dryRun then
      let info : DryRunPatchInfo :=
        { step := step, files := permittedFiles, diff := patch.diff, meta := patch.meta }
      match env.onDryRunPatch with
      | none => ([logStart], true)
      | some callback =>
        match callback info with
        | .ok _ => ([logStart, Event.dryRunPatch info], true)
        | .error _ =>
          ([logStart, Event.dryRunPatch info,
            Event.logMsg "[Codex] Fix attempt failed: dry-run capture callback threw"],
           false)
    else
      match applyPatchRun env patch.diff with
      | (evs, .error msg) =>
        ([logStart] ++ evs ++ [Event.logMsg ("[Codex] Fix attempt failed: " ++ msg)],
         false)
      | (evs, .ok _) =>
        match stageModifiedRun env permittedFiles with
        | (evs2, .error msg) =>
          ([logStart] ++ evs ++ evs2
            ++ [Event.logMsg ("[Codex] Fix attempt failed: " ++ msg)], false)
        | (evs2, .ok _) =>
          ([logStart] ++ evs ++ evs2
            ++ [Event.logMsg ("[Codex] Applied patch touching "
                ++ String.intercalate ", " permittedFiles)], true)

/-- `listChangedFiles`: parse `git status --porcelain` output, swallowing
command failures as the empty list. -/
def listChangedFiles (env : Env) : List String :=
  match env.gitStatusStdout with
  | .error _ => []
  | .ok stdout =>
    if jsTrim stdout == "" then []
    else
      (((((splitLines stdout).map jsTrim).filter (fun l => l != "")).map
        (fun l => jsTrim (strDrop l 3))).filter (fun l => l != ""))

/-- `stageRelevantChanges`: stage every changed, non-ignored file;
nothing to stage is a no-op, a `stageModified` failure propagates. -/
def stageRelevantChanges (env : Env) (rules : List String) : Run PErr Unit :=
  let changedFiles := listChangedFiles env
  let allowed := changedFiles.filter (fun file => !isIgnored file rules env.minimatchFn)
  if allowed.length == 0 then ([], .ok ())
  else
    match stageModifiedRun env allowed with
    | (evs, .ok _) => (evs, .ok ())
    | (evs, .error _) => (evs, .error .stageFailed)

/-- `resolveDecision`: an absent hook is `abort` without a call; a hook
that throws is caught and treated as `abort`. -/
def resolveDecision (env : Env) (event : PipelineDecisionEvent) :
    List Event × PipelineDecision :=
  match env.onDecisionRequired with
  | none => ([], .abort)
  | some resolver =>
    match resolver event with
    | .ok d => ([Event.decisionRequested event], d)
    | .error _ => ([Event.decisionRequested event], .abort)

/-- The `while (attempt <= max && !success)` retry loop of `runPipeline`,
with `fuel` maintained as `max + 1 - attempt` so that exhausted fuel is
exactly the failed loop condition.  Returns `(success, lastResult,
attempt)` as left behind by the loop. -/
def stepLoop (env : Env) (rules : List String) (activeStep : StepDefinition)
    (maxAttempts : Nat) :
    Nat → Nat → Option StepResult → Run PErr (Bool × Option StepResult × Nat)
  | 0, attempt, lastResult => ([], .ok (false, lastResult, attempt))
  | fuel + 1, attempt, _ =>
    let (execEvs, result) := executeStepRun env activeStep attempt
    if result.success then
      if env.mode != PipelineMode.dryRun
          && (activeStep.id == PipelineStepId.format || decide (attempt > 0)) then
        match stageRelevantChanges env rules with
        | (sEvs, .ok _) =>
          (execEvs ++ [Event.stepComplete result] ++ sEvs, .ok (true, some result, attempt))
        | (sEvs, .error e) =>
          (execEvs ++ [Event.stepComplete result] ++ sEvs, .error e)
      else (execEvs ++ [Event.stepComplete result], .ok (true, some result, attempt))
    else if attempt ≥ maxAttempts then
      (execEvs, .ok (false, some result, attempt))
    else
      let (fixEvs, fixApplied) := attemptAiFix env rules activeStep.id result
      if !fixApplied then (execEvs ++ fixEvs, .ok (false, some result, attempt))
      else if env.mode == PipelineMode.dryRun then
        (execEvs ++ fixEvs
          ++ [Event.stepComplete
              { step := activeStep.id, success := true, stdout := result.stdout,
                stderr := result.stderr, attempt := attempt + 1 }],
         .ok (true, some result, attempt))
      else
        match stepLoop env rules activeStep maxAttempts fuel (attempt + 1) (some result) with
        | (evs, r) =>
          (execEvs ++ fixEvs ++ [Event.stepStart activeStep.id (attempt + 1)] ++ evs, r)

/-- The commit annotation attached to a failed step's decision event and
to a commit-anyway outcome. -/
def commitAnnotationFor (id : PipelineStepId) : String :=
  "[pipeline failed at " ++ id.name ++ ": see OUTPUT > CommitSmith]"

/-- The `StepResult` produced by `executeStep` for a given step id and
attempt (the oracle outcome repackaged). -/
def execResultAt (env : Env) (id : PipelineStepId) (attempt : Nat) : StepResult :=
  { step := id, success := (env.exec id attempt).success,
    stdout := (env.exec id attempt).stdout, stderr := (env.exec id attempt).stderr,
    attempt := attempt }

/-- One step of the `for` loop of `runPipeline`: skip on an empty
command, otherwise drive the retry loop and, on exhaustion, the
abort-on-failure early return or the decision escalation.  `some outcome`
is an early return from `runPipeline`, `none` means continue. -/
def runStep (env : Env) (rules : List String) (step : StepDefinition) :
    Run PErr (Option PipelineOutcome) :=
  let trimmedCommand := jsTrim step.command
  if trimmedCommand == "" then
    let reason := step.dryRunSkipReason.getD "No command configured; skipping."
    ([Event.logMsg ("[" ++ formatStepLabel step.id ++ " ⏭️] " ++ reason)], .ok none)
  else
    let activeStep : StepDefinition := { step with command := trimmedCommand }
    let startEv := Event.stepStart step.id 0
    match stepLoop env rules activeStep env.config.pipelineMaxAiFixAttempts
        (env.config.pipelineMaxAiFixAttempts + 1) 0 none with
    | (loopEvs, .error e) => (startEv :: loopEvs, .error e)
    | (loopEvs, .ok (success, lastResult, attempt)) =>
      if success then (startEv :: loopEvs, .ok none)
      else
        let failingResult := lastResult.getD
          { step := step.id, success := false, stdout := "", stderr := "",
            attempt := attempt }
        let completeEv := Event.stepComplete failingResult
        if env.config.pipelineAbortOnFailure then
          (startEv :: loopEvs
            ++ [completeEv, Event.logMsg ("Pipeline aborted on " ++ step.id.name)],
           .ok (some { status := .aborted, failedStep := some step.id,
                       suppressAutoPush := false }))
        else
          let decisionEvent : PipelineDecisionEvent :=
            { step := step.id, stderr := failingResult.stderr, attempts := attempt,
              commitAnnotation := commitAnnotationFor step.id,
              suppressAutoPush := true }
          let (dEvs, decision) := resolveDecision env decisionEvent
          match decision with
          | .commitAnyway =>
            (startEv :: loopEvs ++ [completeEv] ++ dEvs
              ++ [Event.logMsg ("Pipeline continuing via commit-anyway decision after "
                  ++ step.id.name)],
             .ok (some { status := .commitAnyway, failedStep := some step.id,
                         commitAnnotation := some decisionEvent.commitAnnotation,
                         suppressAutoPush := true }))
          | .retry =>
            let (rEvs, retryResult) := executeStepRun env step (attempt + 1)
            if !retryResult.success then
              (startEv :: loopEvs ++ [completeEv] ++ dEvs ++ rEvs
                ++ [Event.stepComplete retryResult,
                    Event.logMsg ("Pipeline aborted after retry on " ++ step.id.name)],
               .ok (some { status := .aborted, failedStep := some step.id,
                           suppressAutoPush := false }))
            else if env.mode != PipelineMode.dryRun then
              match stageRelevantChanges env rules with
              | (sEvs, .ok _) =>
                (startEv :: loopEvs ++ [completeEv] ++ dEvs ++ rEvs
                  ++ [Event.stepComplete retryResult] ++ sEvs, .ok none)
              | (sEvs, .error e) =>
                (startEv :: loopEvs ++ [completeEv] ++ dEvs ++ rEvs
                  ++ [Event.stepComplete retryResult] ++ sEvs, .error e)
            else
              (startEv :: loopEvs ++ [completeEv] ++ dEvs ++ rEvs
                ++ [Event.stepComplete retryResult], .ok none)
          | .abort =>
            (startEv :: loopEvs ++ [completeEv] ++ dEvs
              ++ [Event.logMsg ("Pipeline aborted by decision on " ++ step.id.name)],
             .ok (some { status := .aborted, failedStep := some step.id,
                         suppressAutoPush := false }))

/-- The `for (const step of stepDefinitions)` loop: an early return stops
the iteration, otherwise the next step runs; a completed iteration yields
the `completed` outcome. -/
def runSteps (env : Env) (rules : List String) :
    List StepDefinition → Run PErr PipelineOutcome
  | [] => ([], .ok { status := .completed, suppressAutoPush := false })
  | step :: rest =>
    match runStep env rules step with
    | (evs, .error e) => (evs, .error e)
    | (evs, .ok (some outcome)) => (evs, .ok outcome)
    | (evs, .ok none) =>
      match runSteps env rules rest with
      | (evs2, r) => (evs ++ evs2, r)

/-- `captureRepoSnapshot` as invoked by `runPipeline`: the event is
recorded only when the capture completes successfully. -/
def captureRepoSnapshotRun (env : Env) : Run PErr RepoSnapshot :=
  match env.captureOutcome with
  | .ok snap => ([Event.snapshotCaptured snap], .ok snap)
  | .error _ => ([], .error .captureFailed)

/-- `restoreRepoSnapshot` as invoked by `runPipeline`: the invocation is
recorded, then the restore either completes or throws. -/
def restoreRepoSnapshotRun (env : Env) (snap : RepoSnapshot) : Run PErr Unit :=
  ([Event.restoreInvoked snap], if env.restoreOk then .ok () else .error .restoreFailed)

/-- JavaScript `try { body } finally { fin }`: the finaliser's events
always follow the body's; a finaliser error supersedes the body's
result. -/
def tryFinallyRun {α : Type} (body : Run PErr α) (fin : Run PErr Unit) : Run PErr α :=
  match fin with
  | (fEvs, .ok _) => (body.1 ++ fEvs, body.2)
  | (fEvs, .error e) => (body.1 ++ fEvs, .error e)

/-- `runPipeline`: the disabled short-circuit, step building, ignore-rule
loading, the dry-run snapshot capture, and the step loop wrapped in the
restore finaliser. -/
def runPipeline (env : Env) : Run PErr PipelineOutcome :=
  if !env.config.pipelineEnable then
    ([Event.logMsg "Pipeline disabled via configuration"],
     .ok { status := .skipped, suppressAutoPush := false })
  else
    let stepDefinitions := buildStepDefinitions env
    match readIgnorePatterns env with
    | (iEvs, .error e) => (iEvs, .error e)
    | (iEvs, .ok rules) =>
      if env.mode == PipelineMode.dryRun then
        match captureRepoSnapshotRun env with
        | (cEvs, .error e) => (iEvs ++ cEvs, .error e)
        | (cEvs, .ok snap) =>
          match tryFinallyRun (runSteps env rules stepDefinitions)
              (restoreRepoSnapshotRun env snap) with
          | (tEvs, r) => (iEvs ++ cEvs ++ tEvs, r)
      else
        match runSteps env rules stepDefinitions with
        | (bEvs, r) => (iEvs ++ bEvs, r)

/-! ### Event classification helpers -/

/-- Whether an event is a command execution for the given step id. -/
def isExecOf (id : PipelineStepId) : Event → Bool
  | .execCmd s _ _ => s == id
  | _ => false

/-- Whether an event is any command execution. -/
def isExecEvent : Event → Bool
  | .execCmd _ _ _ => true
  | _ => false

/-- Whether an event is a decision resolver invocation. -/
def isDecisionEvent : Event → Bool
  | .decisionRequested _ => true
  | _ => false

/-- Whether an event is a snapshot capture or restore. -/
def isSnapshotEvent : Event → Bool
  | .snapshotCaptured _ => true
  | .restoreInvoked _ => true
  | _ => false

/-- Whether an event is a `git apply` invocation (check-only or real). -/
def isApplyEvent : Event → Bool
  | .gitApplyCheck _ => true
  | .gitApply _ => true
  | _ => false

/-- Whether an event is a staging invocation. -/
def isStageEvent : Event → Bool
  | .stageFiles _ => true
  | _ => false

/-- Number of command executions of the given step id in a trace. -/
def countExec (evs : List Event) (id : PipelineStepId) : Nat :=
  (evs.filter (isExecOf id)).length

/-- Every command execution in the trace belongs to the given step —
no other step's command is ever executed. -/
def ExecOnly (id : PipelineStepId) (l : List Event) : Prop :=
  ∀ e ∈ l, isExecEvent e = true → isExecOf id e = true

/-! ### Decidability of result comparisons -/

/-- Decidable equality for `Except`, used to evaluate the interpreter on
concrete inputs inside proofs. -/
instance exceptDecEq {ε α : Type} [DecidableEq ε] [DecidableEq α] :
    DecidableEq (Except ε α) := fun x y =>
  match x, y with
  | .error e, .error f =>
    if h : e = f then .isTrue (congrArg Except.error h)
    else .isFalse (fun c => h (Except.error.inj c))
  | .ok a, .ok b =>
    if h : a = b then .isTrue (congrArg Except.ok h)
    else .isFalse (fun c => h (Except.ok.inj c))
  | .error _, .ok _ => .isFalse (fun c => Except.noConfusion c)
  | .ok _, .error _ => .isFalse (fun c => Except.noConfusion c)

/-! ### The snapshot manager over a git repository state model

`captureRepoSnapshot` and `restoreRepoSnapshot` are sequences of git
plumbing invocations (`diff --cached`, `diff`, `ls-files --others
--exclude-standard`, `status --porcelain=v2 -z`, `reset --hard`,
`clean -fd -e .commit-smith`, `apply --binary [--index]`) plus
symlink-preserving file copies.  The repository state and the plumbing
semantics below are modelled from the spec (section 6, "Git plumbing
surface consumed"): a repository is the committed tree (`HEAD`), the
index, the working tree (each a path-to-entry association), the set of
directories present, and the set of gitignored paths.  Patches are
modelled as explicit per-path change lists, which is what a binary-safe
`git apply` of a `git diff` output performs. -/

namespace GitModel

/-- A working-tree entry: a regular file's bytes or a symlink target
(the distinction `copyEntryPreservingSymlink` preserves). -/
inductive FsEntry where
  | file (content : String)
  | symlink (target : String)
deriving DecidableEq, Repr

/-- Modelled from the spec: a repository's state as seen by the git
plumbing surface the snapshot manager consumes. -/
structure GitRepo where
  head : List (String × FsEntry)
  index : List (String × FsEntry)
  worktree : List (String × FsEntry)
  dirs : List String
  ignoredPaths : List String
deriving DecidableEq, Repr

/-- Key list of a path-to-entry association. -/
def keys (m : List (String × FsEntry)) : List String :=
  m.map Prod.fst

/-- Keep the bindings whose path satisfies a predicate. -/
def filterKeys (m : List (String × FsEntry)) (g : String → Bool) :
    List (String × FsEntry) :=
  m.filter (fun q => g q.1)

/-- First-match association lookup (a path maps to at most one entry in
a well-formed tree; `List.lookup` returns the first binding). -/
def lookupEntry (m : List (String × FsEntry)) (p : String) : Option FsEntry :=
  m.lookup p

/-- Whether `.gitignore` rules exclude a path. -/
def isIgnoredPath (r : GitRepo) (p : String) : Bool :=
  r.ignoredPaths.contains p

/-- Whether path `p` lies strictly under directory `d`. -/
def underDir (d p : String) : Bool :=
  strStartsWith p (d ++ "/")

/-- Paths protected by the `git clean` exclusions
`-e .commit-smith -e .commit-smith/**`. -/
def isCommitSmithPath (p : String) : Bool :=
  p == ".commit-smith" || strStartsWith p ".commit-smith/"

/-- Modelled from the spec: `git diff --binary --cached` — the per-path
changes from `HEAD` to the index. -/
def gitDiffCached (r : GitRepo) : List (String × Option FsEntry) :=
  ((keys r.head ++ keys r.index).dedup.filter
    (fun p => decide (lookupEntry r.head p ≠ lookupEntry r.index p))).map
    (fun p => (p, lookupEntry r.index p))

/-- Modelled from the spec: `git diff --binary` — the per-path changes
from the index to the working tree, covering index-tracked paths only
(untracked files never appear in an unstaged diff). -/
def gitDiffUnstaged (r : GitRepo) : List (String × Option FsEntry) :=
  ((keys r.index).dedup.filter
    (fun p => decide (lookupEntry r.worktree p ≠ lookupEntry r.index p))).map
    (fun p => (p, lookupEntry r.worktree p))

/-- Modelled from the spec: `git ls-files --others --exclude-standard` —
working-tree paths absent from the index and not gitignored. -/
def lsFilesOthers (r : GitRepo) : List String :=
  (keys r.worktree).dedup.filter
    (fun p => (lookupEntry r.index p).isNone && !isIgnoredPath r p)

/-- Modelled from the spec: the `? dir/` entries of
`git status --porcelain=v2 -z` — directories with no tracked content
but some untracked content. -/
def statusUntrackedDirs (r : GitRepo) : List String :=
  r.dirs.filter (fun d =>
    ((keys r.index).all (fun p => !underDir d p)) &&
    ((keys r.worktree).any (fun p => underDir d p && !isIgnoredPath r p)))

/-- `collectEmptyDirectories`: walk the working tree and record every
directory whose subtree contains no file at all. -/
def collectEmptyDirectories (r : GitRepo) : List String :=
  r.dirs.filter (fun d => (keys r.worktree).all (fun p => !underDir d p))

/-- `RepoSnapshot` at the granularity of this model: the two diffs as
change lists, the captured path lists, and the side copies made by
`copyEntryPreservingSymlink` into the temporary untracked-file
directory. -/
structure Snapshot where
  stagedPatch : List (String × Option FsEntry)
  unstagedPatch : List (String × Option FsEntry)
  untrackedFiles : List String
  untrackedDirs : List String
  emptyDirs : List String
  sideCopies : List (String × FsEntry)
deriving DecidableEq, Repr

/-- `captureRepoSnapshot`: the four read-only git queries plus the
side copies of every untracked file (symlinks preserved) and the empty
directory scan. -/
def captureRepoSnapshot (r : GitRepo) : Snapshot :=
  let untrackedFiles := lsFilesOthers r
  { stagedPatch := gitDiffCached r
    unstagedPatch := gitDiffUnstaged r
    untrackedFiles := untrackedFiles
    untrackedDirs := statusUntrackedDirs r
    emptyDirs := collectEmptyDirectories r
    sideCopies := untrackedFiles.filterMap
      (fun p => (lookupEntry r.worktree p).map (fun e => (p, e))) }

/-- Apply one per-path change (`none` removes the path, `some e` writes
entry `e`). -/
def applyChange (m : List (String × FsEntry)) : String × Option FsEntry →
    List (String × FsEntry)
  | (p, none) => filterKeys m (fun s => s != p)
  | (p, some e) => (p, e) :: filterKeys m (fun s => s != p)

/-- Modelled from the spec: binary-safe `git apply` of a change list. -/
def applyPatchEntries (m : List (String × FsEntry))
    (patch : List (String × Option FsEntry)) : List (String × FsEntry) :=
  patch.foldl applyChange m

/-- Modelled from the spec: `git reset --hard` — the index becomes
`HEAD`, tracked working-tree paths are reset to their `HEAD` entries
(paths tracked only in the index are removed), untracked files are left
in place. -/
def resetHard (r : GitRepo) : GitRepo :=
  { r with
    index := r.head
    worktree := r.head ++ filterKeys r.worktree (fun s =>
      (lookupEntry r.head s).isNone && (lookupEntry r.index s).isNone) }

/-- Modelled from the spec: `git clean -fd -e .commit-smith
-e .commit-smith/**` — remove every untracked, non-gitignored file and
directory outside the engine's artifact directory. -/
def cleanUntracked (r : GitRepo) : GitRepo :=
  { r with
    worktree := filterKeys r.worktree (fun s =>
      !((lookupEntry r.index s).isNone && !isIgnoredPath r s &&
        !isCommitSmithPath s))
    dirs := r.dirs.filter (fun d =>
      !(((keys r.index).all (fun p => !underDir d p)) && !isIgnoredPath r d &&
        !isCommitSmithPath d)) }

/-- `git apply --binary --index`: the staged patch lands in both the
index and the working tree. -/
def applyIndexPatch (r : GitRepo) (patch : List (String × Option FsEntry)) : GitRepo :=
  { r with index := applyPatchEntries r.index patch
           worktree := applyPatchEntries r.worktree patch }

/-- `git apply --binary`: the unstaged patch lands in the working tree
only. -/
def applyWorktreePatch (r : GitRepo) (patch : List (String × Option FsEntry)) : GitRepo :=
  { r with worktree := applyPatchEntries r.worktree patch }

/-- Proper ancestor directories of a path, shortest first (what
`fs.mkdir(dirname, { recursive: true })` asserts). -/
def parentDirs (p : String) : List String :=
  let parts := (splitOnCharAux '/' p.data).map (fun l => (⟨l⟩ : String))
  (List.range (parts.length - 1)).map
    (fun i => String.intercalate "/" (parts.take (i + 1)))

/-- Insertion by ascending length, modelling the snapshot restore's
`sort((a, b) => a.length - b.length)`. -/
def insertByLen (x : String) : List String → List String
  | [] => [x]
  | y :: ys =>
    if x.data.length ≤ y.data.length then x :: y :: ys else y :: insertByLen x ys

/-- Sort by ascending length. -/
def sortByLen (l : List String) : List String :=
  l.foldr insertByLen []

/-- `restoreRepoSnapshot`, in the source's strict order: hard reset,
clean, reapply the staged patch into the index, reapply the unstaged
patch into the working tree, copy the untracked files back from the side
location (recreating parents), then recreate the union of untracked and
empty directories, shortest first. -/
def restoreRepoSnapshot (r : GitRepo) (s : Snapshot) : GitRepo :=
  let r1 := cleanUntracked (resetHard r)
  let r2 := if s.stagedPatch.isEmpty then r1 else applyIndexPatch r1 s.stagedPatch
  let r3 := if s.unstagedPatch.isEmpty then r2 else applyWorktreePatch r2 s.unstagedPatch
  let r4 :=
    { r3 with
      worktree := applyPatchEntries r3.worktree
        (s.untrackedFiles.filterMap
          (fun p => (s.sideCopies.lookup p).map (fun e => (p, some e))))
      dirs := r3.dirs ++ s.untrackedFiles.foldr (fun p acc => parentDirs p ++ acc) [] }
  { r4 with
    dirs := r4.dirs ++
      (sortByLen (s.untrackedDirs ++ s.emptyDirs).dedup).foldr
        (fun d acc => (parentDirs d ++ [d]) ++ acc) [] }

/-- The porcelain status code of one path: the staged column from
`HEAD` versus index, the unstaged column from index versus working tree,
and the untracked marker for non-ignored paths absent from the index;
paths with no difference produce no entry. -/
def statusCode (r : GitRepo) (p : String) : Option String :=
  let h := lookupEntry r.head p
  let i := lookupEntry r.index p
  let w := lookupEntry r.worktree p
  if i.isNone then
    if w.isSome && !isIgnoredPath r p then some "??"
    else if h.isSome then some "D "
    else none
  else
    let x := if h = i then ' ' else if h.isNone then 'A' else 'M'
    let y := if w = i then ' ' else if w.isNone then 'D' else 'M'
    if x == ' ' && y == ' ' then none else some ⟨[x, y]⟩

/-- Candidate paths that can possibly produce a status entry. -/
def candidatePaths (r : GitRepo) : List String :=
  (keys r.head ++ keys r.index ++ keys r.worktree).dedup

/-- Modelled from the spec: the machine-readable `git status
--porcelain` output — one line per non-clean path, sorted, rendered
deterministically from the per-path status codes.  Empty directories
never appear in porcelain output. -/
def porcelainStatus (r : GitRepo) : String :=
  String.intercalate "\n"
    ((((candidatePaths r).toFinset.filter
        (fun p => (statusCode r p).isSome = true)).sort (· ≤ ·)).map
      (fun p => (statusCode r p).getD "" ++ " " ++ p))

end GitModel

/-! ### Concrete instances used by witnesses and counterexamples -/

/-- A well-formed single-file unified diff touching `file.txt`. -/
def goodDiff : String :=
  "--- a/file.txt\n+++ b/file.txt\n@@ -1 +1 @@\n-old\n+new\n"

/-- A two-file diff touching `file.txt` and `ignored.txt`. -/
def mixedDiff : String :=
  "--- a/file.txt\n+++ b/file.txt\n@@ -1 +1 @@\n-o\n+n\n--- a/ignored.txt\n+++ b/ignored.txt\n@@ -1 +1 @@\n-o\n+n\n"

/-- A diff whose first header pair is clean but whose second file header
references a parent-directory traversal. -/
def lateTraversalDiff : String :=
  "--- a/ok.txt\n+++ b/ok.txt\n@@ -1 +1 @@\n-x\n+y\n--- a/../evil\n+++ b/../evil\n@@ -1 +1 @@\n-x\n+y\n"

/-- An empty repository snapshot value. -/
def snapA : RepoSnapshot :=
  { stagedPatch := "", unstagedPatch := "", untrackedFiles := [],
    untrackedDirs := [], emptyDirs := [] }

/-- A baseline environment: pipeline enabled, only the typecheck step
configured, every oracle succeeding. -/
def envBase : Env :=
  { config := { pipelineEnable := true, pipelineMaxAiFixAttempts := 2,
                pipelineAbortOnFailure := true, formatCommand := "",
                typecheckCommand := "node tc.js", testsCommand := "" }
    mode := .execute
    exec := fun _ _ => { success := true, stdout := "", stderr := "" }
    packageScripts := []
    ignoreFile := .ok none
    postFix := fun _ => .ok { diff := goodDiff }
    minimatchFn := fun file pattern => file == pattern
    gitStatusStdout := .ok ""
    gitApplyCheckOk := fun _ => true
    gitApplyOk := fun _ => true
    stageOk := true
    onDecisionRequired := none
    onDryRunPatch := none
    captureOutcome := .ok snapA
    restoreOk := true }

/-- Dry-run variant of the baseline environment. -/
def dryEnv : Env :=
  { envBase with mode := .dryRun }

/-- Dry-run environment whose typecheck command always fails and whose
fix oracle produces a usable patch captured by the dry-run callback. -/
def c3Env : Env :=
  { envBase with
    mode := .dryRun
    exec := fun id _ =>
      if id == PipelineStepId.typecheck then
        { success := false, stdout := "", stderr := "tc failed" }
      else { success := true, stdout := "", stderr := "" }
    onDryRunPatch := some (fun _ => .ok ()) }

/-- The patch-capture payload produced in `c3Env`. -/
def c3PatchInfo : DryRunPatchInfo :=
  { step := .typecheck, files := ["file.txt"], diff := goodDiff }

/-- Execute-mode environment whose typecheck command fails on attempt 0
and succeeds from attempt 1 on, with a usable applied patch. -/
def c6Env : Env :=
  { envBase with
    exec := fun id a =>
      if id == PipelineStepId.typecheck && a == 0 then
        { success := false, stdout := "", stderr := "err in src/x.ts line 3" }
      else { success := true, stdout := "", stderr := "" } }

/-- Execute-mode environment whose typecheck command never succeeds. -/
def c7Env : Env :=
  { envBase with
    exec := fun id _ =>
      if id == PipelineStepId.typecheck then
        { success := false, stdout := "", stderr := "tc failed" }
      else { success := true, stdout := "", stderr := "" } }

/-- Like `c7Env` with abort-on-failure off and a resolver answering
commit-anyway. -/
def c8Env : Env :=
  { c7Env with
    config := { c7Env.config with pipelineAbortOnFailure := false }
    onDecisionRequired := some (fun _ => .ok .commitAnyway) }

/-- Like `c8Env` with no decision resolver installed. -/
def c9Env : Env :=
  { c8Env with onDecisionRequired := none }

/-- Environment with the pipeline disabled via configuration. -/
def c10Env : Env :=
  { dryEnv with config := { envBase.config with pipelineEnable := false } }

/-- Environment whose fix oracle returns the mixed two-file diff. -/
def c4Env : Env :=
  { envBase with postFix := fun _ => .ok { diff := mixedDiff } }

/-- A failing step result used to drive `attemptAiFix` directly. -/
def failResultA : StepResult :=
  { step := .tests, success := false, stdout := "", stderr := "", attempt := 0 }

/-- A repository exhibiting staged changes, unstaged changes, untracked
files, an untracked directory, an empty directory and a symlink. -/
def repoW : GitModel.GitRepo :=
  { head := [("tracked.txt", .file "v1"), ("mod.txt", .file "a")]
    index := [("tracked.txt", .file "v2"), ("mod.txt", .file "a")]
    worktree := [("tracked.txt", .file "v2"), ("mod.txt", .file "b"),
                 ("new.txt", .file "n"), ("sub/u.txt", .file "u"),
                 ("link", .symlink "tracked.txt")]
    dirs := ["sub", "emptydir"]
    ignoredPaths := [] }

/-- The typecheck step definition used by concrete environments. -/
def tcStep : StepDefinition :=
  { id := .typecheck, command := "node tc.js" }

/-- A tests step definition placed after the typecheck step in
multi-step concrete runs. -/
def testsStep : StepDefinition :=
  { id := .tests, command := "node t.js" }

/-! ### Theorems -/

/-- C10: with `pipelineEnable` false, `runPipeline` returns exactly the
skipped outcome with `suppressAutoPush = false`, emits only the disabled
log line, and performs no command execution, no decision resolver call,
and no snapshot capture or restore, even in dry-run mode. -/
theorem pipeline_disabled_skips_everything (env : Env)
    (h : env.config.pipelineEnable = false) :
    runPipeline env = ([Event.logMsg "Pipeline disabled via configuration"],
      .ok { status := .skipped, suppressAutoPush := false }) ∧
    ∀ e ∈ (runPipeline env).1, isExecEvent e = false ∧ isDecisionEvent e = false ∧
      isSnapshotEvent e = false := by
  have h1 : runPipeline env = ([Event.logMsg "Pipeline disabled via configuration"],
      .ok { status := .skipped, suppressAutoPush := false }) := by
    unfold runPipeline
    rw [h]
    rfl
  refine ⟨h1, ?_⟩
  rw [h1]
  intro e he
  simp only [List.mem_singleton] at he
  subst he
  exact ⟨rfl, rfl, rfl⟩

/-- C10 witness: the theorem applied to the concrete disabled
environment. -/
theorem pipeline_disabled_skips_everything_witness :
    c10Env.config.pipelineEnable = false ∧
    (runPipeline c10Env = ([Event.logMsg "Pipeline disabled via configuration"],
      .ok { status := .skipped, suppressAutoPush := false }) ∧
    ∀ e ∈ (runPipeline c10Env).1, isExecEvent e = false ∧ isDecisionEvent e = false ∧
      isSnapshotEvent e = false) :=
  ⟨rfl, pipeline_disabled_skips_everything c10Env rfl⟩

/-- C1: in dry-run mode, whenever the snapshot capture succeeds (the
pipeline is enabled and the ignore file read does not throw, so the
capture is reached), the captured snapshot is passed to
`restoreRepoSnapshot` before `runPipeline` returns, whatever the step
bodies do and however they exit — normal completion, skipped steps,
abort, commit-anyway, or an internally thrown error (the events of the
run are everything performed before `runPipeline` returns). -/
theorem dry_run_snapshot_always_restored (env : Env) (snap : RepoSnapshot)
    (v : Option String)
    (hm : env.mode = PipelineMode.dryRun)
    (he : env.config.pipelineEnable = true)
    (hi : env.ignoreFile = Except.ok v)
    (hc : env.captureOutcome = Except.ok snap) :
    Event.restoreInvoked snap ∈ (runPipeline env).1 := by
  unfold runPipeline readIgnorePatterns captureRepoSnapshotRun restoreRepoSnapshotRun
    tryFinallyRun
  rw [he, hm, hi, hc]
  cases v <;> cases hr : env.restoreOk <;>
    simp [List.mem_append]

/-- C1 witness: the theorem applied to the concrete dry-run
environment. -/
theorem dry_run_snapshot_always_restored_witness :
    dryEnv.mode = PipelineMode.dryRun ∧ dryEnv.config.pipelineEnable = true ∧
    dryEnv.ignoreFile = Except.ok none ∧ dryEnv.captureOutcome = Except.ok snapA ∧
    Event.restoreInvoked snapA ∈ (runPipeline dryEnv).1 :=
  ⟨rfl, rfl, rfl, rfl,
    dry_run_snapshot_always_restored dryEnv snapA none rfl rfl rfl rfl⟩

/-- C3 counterexample: in dry-run mode a fix attempt produces a usable
patch (captured by the dry-run callback), yet the typecheck command is
executed exactly once — it is never rerun — and the step is reported
successful, so the pipeline completes. -/
theorem dry_run_fix_does_not_rerun_counterexample :
    (runPipeline c3Env).2 =
      .ok { status := .completed, suppressAutoPush := false } ∧
    Event.dryRunPatch c3PatchInfo ∈ (runPipeline c3Env).1 ∧
    countExec (runPipeline c3Env).1 PipelineStepId.typecheck = 1 := by
  refine ⟨by decide, by decide, by decide⟩

/-- C5 counterexample: the validator accepts a diff whose second file
header references `../evil`, a path that the extractor reports as
touched and that contains a `..` segment — traversal paths outside the
first header pair are not rejected. -/
theorem traversal_in_later_header_accepted_counterexample :
    validateUnifiedDiff lateTraversalDiff = Except.ok () ∧
    "../evil" ∈ extractPatchedFiles lateTraversalDiff ∧
    strContains "../evil" ".." = true := by
  refine ⟨by decide, by decide, by decide⟩

/-- C4: whenever the fix oracle produces a diff whose extracted
touched-file set contains both an ignored and a non-ignored path, the
fix attempt returns `false` and performs no `git apply` invocation and
no staging — the whole patch is rejected, in either mode. -/
theorem attemptAiFix_rejects_mixed_patch (env : Env) (rules : List String)
    (step : PipelineStepId) (result : StepResult) (resp : FixResponse)
    (hresp : env.postFix (aiFixContext result step) = .ok resp)
    (hig : ∃ f ∈ extractPatchedFiles resp.diff,
      isIgnored f rules env.minimatchFn = true)
    (hok : ∃ f ∈ extractPatchedFiles resp.diff,
      isIgnored f rules env.minimatchFn = false) :
    (attemptAiFix env rules step result).2 = false ∧
    ∀ e ∈ (attemptAiFix env rules step result).1,
      isApplyEvent e = false ∧ isStageEvent e = false := by
  obtain ⟨fi, hfi, hfiIg⟩ := hig
  obtain ⟨fo, hfo, hfoOk⟩ := hok
  simp only [attemptAiFix, generateFixRun, hresp]
  cases hv : validateUnifiedDiff resp.diff with
  | error e =>
    refine ⟨rfl, ?_⟩
    intro ev hev
    simp only [List.mem_cons, List.mem_singleton, List.not_mem_nil, or_false] at hev
    rcases hev with rfl | rfl <;> exact ⟨rfl, rfl⟩
  | ok u =>
    have hposm : fo ∈ (extractPatchedFiles resp.diff).filter
        (fun f => !isIgnored f rules env.minimatchFn) :=
      List.mem_filter.mpr ⟨hfo, by simp [hfoOk]⟩
    have hpos : ((extractPatchedFiles resp.diff).filter
        (fun f => !isIgnored f rules env.minimatchFn)).length ≠ 0 := by
      have := List.ne_nil_of_mem hposm
      simpa [List.length_eq_zero] using this
    have hne : ((extractPatchedFiles resp.diff).filter
        (fun f => !isIgnored f rules env.minimatchFn)).length ≠
        (extractPatchedFiles resp.diff).length := by
      intro hcontra
      have hall := List.filter_length_eq_length.mp hcontra
      have := hall fi hfi
      rw [hfiIg] at this
      simp at this
    simp only [AIPatch.mk.injEq]
    rw [if_neg (by simpa using hpos), if_pos (by simpa using hne)]
    refine ⟨rfl, ?_⟩
    intro ev hev
    simp only [List.mem_cons, List.mem_singleton, List.not_mem_nil, or_false] at hev
    rcases hev with rfl | rfl <;> exact ⟨rfl, rfl⟩

/-- C4 witness: the theorem applied to the concrete mixed-diff
environment. -/
theorem attemptAiFix_rejects_mixed_patch_witness :
    c4Env.postFix (aiFixContext failResultA .tests) = .ok { diff := mixedDiff } ∧
    (∃ f ∈ extractPatchedFiles mixedDiff,
      isIgnored f ["ignored.txt"] c4Env.minimatchFn = true) ∧
    (∃ f ∈ extractPatchedFiles mixedDiff,
      isIgnored f ["ignored.txt"] c4Env.minimatchFn = false) ∧
    (attemptAiFix c4Env ["ignored.txt"] .tests failResultA).2 = false ∧
    ∀ e ∈ (attemptAiFix c4Env ["ignored.txt"] .tests failResultA).1,
      isApplyEvent e = false ∧ isStageEvent e = false :=
  ⟨rfl, ⟨"ignored.txt", by decide, by decide⟩, ⟨"file.txt", by decide, by decide⟩,
    attemptAiFix_rejects_mixed_patch c4Env ["ignored.txt"] .tests failResultA
      { diff := mixedDiff } rfl
      ⟨"ignored.txt", by decide, by decide⟩ ⟨"file.txt", by decide, by decide⟩⟩

/-- A string whose first character is not whitespace does not trim to
the empty string. -/
lemma jsTrim_beq_empty_false (c : Char) (l : List Char) (s : String)
    (hc : isJsWhitespace c = false) (hs : s.data = c :: l) :
    (jsTrim s == "") = false := by
  have hne : (((s.data.dropWhile isJsWhitespace).reverse.dropWhile
      isJsWhitespace).reverse) ≠ [] := by
    rw [hs, List.dropWhile_cons, hc]
    simp only [Bool.false_eq_true, if_false, ne_eq, List.reverse_eq_nil_iff]
    intro hnil
    have hall := List.dropWhile_eq_nil_iff.mp hnil
    have hmem : c ∈ (c :: l).reverse := by simp
    have := hall c hmem
    rw [hc] at this
    exact Bool.false_ne_true this
  have : jsTrim s ≠ "" := by
    intro hcontra
    apply hne
    have := congrArg String.data hcontra
    simpa [jsTrim] using this
  simpa [beq_eq_false_iff_ne] using this

lemma parseFirstHeader_shape (diff : String) (pr : String × String)
    (h : parseFirstHeader diff = some pr) : ∃ rest, diff.data = '-' :: rest := by
  unfold parseFirstHeader at h
  split at h
  case _ rest heq => exact ⟨_, heq⟩
  case _ => exact absurd h (by simp)

/-- Characterisation of one header side passing `normalizeDiffPath` with
a non-traversal result. -/
lemma normalize_ok_cases (v : String) (tag : Char) :
    (∃ info, normalizeDiffPath v tag = .ok info ∧ pathInfoBad info = false) ↔
    diffSideOk v tag = true := by
  unfold normalizeDiffPath diffSideOk
  by_cases h1 : (v == "/dev/null") = true
  · simp [h1, pathInfoBad]
  · rw [Bool.not_eq_true] at h1
    by_cases h2 : strStartsWith v ⟨[tag, '/']⟩ = true
    · simp only [h1, Bool.false_eq_true, if_false, h2, if_true, Bool.false_or]
      constructor
      · rintro ⟨info, hinfo, hbad⟩
        obtain rfl : info = some (listIsInfix ['.', '.'] (v.data.drop 2),
            pathHeadSlash (v.data.drop 2)) := by
          injection hinfo.symm
        simp only [pathInfoBad, Bool.or_eq_false_iff] at hbad
        simp [h2, hbad.1, hbad.2]
      · intro hok
        refine ⟨_, rfl, ?_⟩
        simp only [h2, Bool.true_and] at hok
        rw [Bool.and_eq_true] at hok
        simp [pathInfoBad, Bool.not_eq_true', Bool.or_eq_false_iff] at hok ⊢
        exact ⟨hok.1, hok.2⟩
    · rw [Bool.not_eq_true] at h2
      simp [h1, h2]

/-- C5 amended: the validator examines only the first `---`/`+++`
header pair, anchored at the very start of the diff; given that pair
parses, the diff is accepted exactly when each side is `/dev/null` or an
path with the expected `a/` or `b/` tag, containing no `..` and not
starting with a slash.  Later file headers are never examined. -/
theorem validator_checks_first_header_only (diff f t : String)
    (h : parseFirstHeader diff = some (f, t)) :
    (validateUnifiedDiff diff = .ok ()) ↔
    (diffSideOk f 'a' = true ∧ diffSideOk t 'b' = true) := by
  obtain ⟨rest, hshape⟩ := parseFirstHeader_shape diff (f, t) h
  have htrim : (jsTrim diff == "") = false :=
    jsTrim_beq_empty_false '-' rest diff (by decide) hshape
  unfold validateUnifiedDiff
  rw [htrim, h]
  simp only [Bool.false_eq_true, if_false]
  rcases hna : normalizeDiffPath f 'a' with e | fi
  · constructor
    · intro hcontra
      exact absurd hcontra (by simp)
    · rintro ⟨hf, -⟩
      obtain ⟨info, hinfo, -⟩ := (normalize_ok_cases f 'a').mpr hf
      rw [hna] at hinfo
      exact absurd hinfo (by simp)
  · rcases hnb : normalizeDiffPath t 'b' with e | ti
    · constructor
      · intro hcontra
        exact absurd hcontra (by simp)
      · rintro ⟨-, ht⟩
        obtain ⟨info, hinfo, -⟩ := (normalize_ok_cases t 'b').mpr ht
        rw [hnb] at hinfo
        exact absurd hinfo (by simp)
    · have hfiff : diffSideOk f 'a' = true ↔ pathInfoBad fi = false := by
        rw [← normalize_ok_cases]
        constructor
        · rintro ⟨info, hinfo, hbad⟩
          rw [hna] at hinfo
          obtain rfl : fi = info := by injection hinfo
          exact hbad
        · intro hbad
          exact ⟨fi, hna, hbad⟩
      have htiff : diffSideOk t 'b' = true ↔ pathInfoBad ti = false := by
        rw [← normalize_ok_cases]
        constructor
        · rintro ⟨info, hinfo, hbad⟩
          rw [hnb] at hinfo
          obtain rfl : ti = info := by injection hinfo
          exact hbad
        · intro hbad
          exact ⟨ti, hnb, hbad⟩
      by_cases hbf : pathInfoBad fi = true
      · simp [hbf, hfiff]
      · rw [Bool.not_eq_true] at hbf
        by_cases hbt : pathInfoBad ti = true
        · simp [hbf, hbt, htiff]
        · rw [Bool.not_eq_true] at hbt
          simp [hbf, hbt, hfiff, htiff]

/-- C5 amended witness: the characterisation applied to a concrete
clean single-file diff. -/
theorem validator_checks_first_header_only_witness :
    parseFirstHeader goodDiff = some ("a/file.txt", "b/file.txt") ∧
    ((validateUnifiedDiff goodDiff = .ok ()) ↔
      (diffSideOk "a/file.txt" 'a' = true ∧ diffSideOk "b/file.txt" 'b' = true)) :=
  ⟨by decide, validator_checks_first_header_only goodDiff "a/file.txt" "b/file.txt"
    (by decide)⟩

/-! ### Event vocabulary lemmas -/

lemma execOnly_nil (id : PipelineStepId) : ExecOnly id [] := by
  intro e he
  exact absurd he (List.not_mem_nil e)

lemma execOnly_append {l1 l2 : List Event} {id : PipelineStepId}
    (h1 : ExecOnly id l1) (h2 : ExecOnly id l2) : ExecOnly id (l1 ++ l2) := by
  intro e he hex
  rcases List.mem_append.mp he with h | h
  · exact h1 e h hex
  · exact h2 e h hex

lemma execOnly_of_no_exec {l : List Event} {id : PipelineStepId}
    (h : ∀ e ∈ l, isExecEvent e = false) : ExecOnly id l := by
  intro e he hex
  rw [h e he] at hex
  exact absurd hex (by simp)

lemma execOnly_cons_non_exec {l : List Event} {id : PipelineStepId} {e0 : Event}
    (h0 : isExecEvent e0 = false) (h : ExecOnly id l) : ExecOnly id (e0 :: l) := by
  intro e he hex
  rcases List.mem_cons.mp he with rfl | hmem
  · rw [h0] at hex
    exact absurd hex (by simp)
  · exact h e hmem hex

lemma execOnly_own_exec (id : PipelineStepId) (cmd : String) (a : Nat) :
    ExecOnly id [Event.execCmd id cmd a] := by
  intro e he hex
  rcases List.mem_singleton.mp he with rfl
  simp [isExecOf]

lemma countExec_append (l1 l2 : List Event) (id : PipelineStepId) :
    countExec (l1 ++ l2) id = countExec l1 id + countExec l2 id := by
  simp [countExec, List.filter_append]

lemma countExec_eq_zero_of_no_exec {l : List Event} {id : PipelineStepId}
    (h : ∀ e ∈ l, isExecEvent e = false) : countExec l id = 0 := by
  simp only [countExec, List.length_eq_zero]
  rw [List.filter_eq_nil_iff]
  intro e he
  have := h e he
  cases e <;> simp_all [isExecEvent, isExecOf]

lemma countExec_eq_zero_of_other {l : List Event} {id : PipelineStepId}
    (h : ∀ e ∈ l, isExecOf id e = false) : countExec l id = 0 := by
  simp only [countExec, List.length_eq_zero]
  rw [List.filter_eq_nil_iff]
  intro e he
  simp [h e he]

lemma applyPatchRun_no_exec (env : Env) (diff : String) :
    ∀ e ∈ (applyPatchRun env diff).1, isExecEvent e = false := by
  intro e he
  unfold applyPatchRun at he
  by_cases h1 : env.gitApplyCheckOk diff <;> by_cases h2 : env.gitApplyOk diff <;>
    simp only [h1, h2, Bool.false_eq_true, if_true, if_false, List.mem_cons,
      List.mem_singleton, List.not_mem_nil, or_false] at he <;>
    rcases he with rfl | rfl <;> rfl

lemma stageModifiedRun_no_exec (env : Env) (files : List String) :
    ∀ e ∈ (stageModifiedRun env files).1, isExecEvent e = false := by
  intro e he
  simp only [stageModifiedRun, List.mem_singleton] at he
  subst he
  rfl

lemma stageRelevantChanges_no_exec (env : Env) (rules : List String) :
    ∀ e ∈ (stageRelevantChanges env rules).1, isExecEvent e = false := by
  intro e he
  simp only [stageRelevantChanges] at he
  by_cases hz : ((((listChangedFiles env).filter
      (fun file => !isIgnored file rules env.minimatchFn)).length == 0) = true)
  · simp only [hz, if_true] at he
    exact absurd he (List.not_mem_nil e)
  · simp only [Bool.not_eq_true] at hz
    simp only [hz, Bool.false_eq_true, if_false, stageModifiedRun] at he
    by_cases hst : env.stageOk = true <;>
      simp only [hst, Bool.false_eq_true, if_true, if_false,
        List.mem_singleton] at he <;>
      subst he <;> rfl

lemma attemptAiFix_no_exec (env : Env) (rules : List String) (step : PipelineStepId)
    (result : StepResult) :
    ∀ e ∈ (attemptAiFix env rules step result).1, isExecEvent e = false := by
  intro e he
  simp only [attemptAiFix] at he
  split at he
  · simp only [List.mem_cons, List.mem_singleton, List.not_mem_nil, or_false] at he
    rcases he with rfl | rfl <;> rfl
  · split at he
    · simp only [List.mem_cons, List.mem_singleton, List.not_mem_nil, or_false] at he
      rcases he with rfl | rfl <;> rfl
    · split at he
      · simp only [List.mem_cons, List.mem_singleton, List.not_mem_nil, or_false] at he
        rcases he with rfl | rfl <;> rfl
      · split at he
        · -- dry-run capture branch
          split at he
          · simp only [List.mem_singleton] at he
            subst he
            rfl
          · split at he
            · simp only [List.mem_cons, List.mem_singleton, List.not_mem_nil,
                or_false] at he
              rcases he with rfl | rfl <;> rfl
            · simp only [List.mem_cons, List.mem_singleton, List.not_mem_nil,
                or_false] at he
              rcases he with rfl | rfl | rfl <;> rfl
        · -- apply-and-stage branch
          split at he
          · rename_i evs msg heq
            have hfst := congrArg Prod.fst heq
            simp only at hfst
            simp only [List.mem_append, List.mem_cons, List.mem_singleton,
              List.not_mem_nil, or_false] at he
            rcases he with (rfl | hmem) | rfl
            · rfl
            · rw [← hfst] at hmem
              exact applyPatchRun_no_exec env _ e hmem
            · rfl
          · rename_i evs u heq
            have hfst := congrArg Prod.fst heq
            simp only at hfst
            split at he
            all_goals
              rename_i evs2 msg2 heq2
              have hfst2 := congrArg Prod.fst heq2
              simp only at hfst2
              simp only [List.mem_append, List.mem_cons, List.mem_singleton,
                List.not_mem_nil, or_false] at he
              rcases he with ((rfl | hmem) | hmem2) | rfl
              · rfl
              · rw [← hfst] at hmem
                exact applyPatchRun_no_exec env _ e hmem
              · rw [← hfst2] at hmem2
                exact stageModifiedRun_no_exec env _ e hmem2
              · rfl

/-! ### Retry-loop lemmas -/

lemma executeStepRun_eq (env : Env) (st : StepDefinition) (a : Nat) :
    executeStepRun env st a =
      ([Event.execCmd st.id st.command a], execResultAt env st.id a) := rfl

lemma execResultAt_success (env : Env) (id : PipelineStepId) (a : Nat) :
    (execResultAt env id a).success = (env.exec id a).success := rfl

lemma countExec_own_singleton (id : PipelineStepId) (cmd : String) (a : Nat) :
    countExec [Event.execCmd id cmd a] id = 1 := by
  simp [countExec, isExecOf]

lemma stageRelevantChanges_ok (env : Env) (rules : List String)
    (hstage : env.stageOk = true) :
    ∃ evs, stageRelevantChanges env rules = (evs, .ok ()) ∧
      ∀ e ∈ evs, isExecEvent e = false := by
  simp only [stageRelevantChanges]
  by_cases hz : ((((listChangedFiles env).filter
      (fun file => !isIgnored file rules env.minimatchFn)).length == 0) = true)
  · rw [if_pos hz]
    exact ⟨[], rfl, fun e he => absurd he (List.not_mem_nil e)⟩
  · rw [if_neg hz]
    simp only [stageModifiedRun, hstage, if_true]
    refine ⟨_, rfl, ?_⟩
    intro e he
    simp only [List.mem_singleton] at he
    subst he
    rfl

/-- With a command that never succeeds, in execute mode, the retry loop
always terminates unsuccessfully, and every command it executes is the
step's own. -/
lemma stepLoop_all_fail (env : Env) (rules : List String) (st : StepDefinition)
    (maxA : Nat) (hm : env.mode = PipelineMode.execute)
    (hfail : ∀ a, (env.exec st.id a).success = false) :
    ∀ fuel attempt last, ∃ evs lastR att,
      stepLoop env rules st maxA fuel attempt last = (evs, .ok (false, lastR, att)) ∧
      ExecOnly st.id evs := by
  intro fuel
  induction fuel with
  | zero =>
    intro attempt last
    exact ⟨[], last, attempt, rfl, execOnly_nil st.id⟩
  | succ n ih =>
    intro attempt last
    simp only [stepLoop, executeStepRun_eq, execResultAt_success, hfail attempt,
      Bool.false_eq_true, if_false]
    by_cases hge : attempt ≥ maxA
    · rw [if_pos hge]
      exact ⟨_, _, _, rfl, execOnly_own_exec st.id st.command attempt⟩
    · rw [if_neg hge]
      rcases hfixeq : attemptAiFix env rules st.id (execResultAt env st.id attempt)
        with ⟨fixEvs, fixApplied⟩
      have hfixevs : fixEvs =
          (attemptAiFix env rules st.id (execResultAt env st.id attempt)).1 := by
        rw [hfixeq]
      cases fixApplied
      · simp only [Bool.not_false, if_true]
        refine ⟨_, _, _, rfl, ?_⟩
        refine execOnly_append (execOnly_own_exec st.id st.command attempt) ?_
        refine execOnly_of_no_exec ?_
        rw [hfixevs]
        exact attemptAiFix_no_exec env rules st.id _
      · simp only [Bool.not_true, Bool.false_eq_true, if_false, hm]
        have hbe : (PipelineMode.execute == PipelineMode.dryRun) = false := rfl
        simp only [hbe, Bool.false_eq_true, if_false]
        obtain ⟨evs, lastR, att, heq, honly⟩ :=
          ih (attempt + 1) (some (execResultAt env st.id attempt))
        rw [heq]
        refine ⟨_, lastR, att, rfl, ?_⟩
        refine execOnly_append (execOnly_append (execOnly_append
          (execOnly_own_exec st.id st.command attempt) ?_) ?_) honly
        · refine execOnly_of_no_exec ?_
          rw [hfixevs]
          exact attemptAiFix_no_exec env rules st.id _
        · exact execOnly_cons_non_exec rfl (execOnly_nil st.id)

/-- With a command failing on attempts `attempt..attempt+k-1`, a fix
applied after each failure and success on attempt `attempt+k ≤ max`, the
retry loop succeeds after exactly `k + 1` command executions, all of the
step's own command. -/
lemma stepLoop_succeeds (env : Env) (rules : List String) (st : StepDefinition)
    (maxA : Nat) (hm : env.mode = PipelineMode.execute) (hstage : env.stageOk = true) :
    ∀ k fuel attempt last,
      k + 1 ≤ fuel →
      (∀ j, j < k → (env.exec st.id (attempt + j)).success = false) →
      (env.exec st.id (attempt + k)).success = true →
      (∀ j, j < k →
        (attemptAiFix env rules st.id (execResultAt env st.id (attempt + j))).2 = true) →
      attempt + k ≤ maxA →
      ∃ evs,
        stepLoop env rules st maxA fuel attempt last =
          (evs, .ok (true, some (execResultAt env st.id (attempt + k)), attempt + k)) ∧
        countExec evs st.id = k + 1 ∧ ExecOnly st.id evs := by
  intro k
  induction k with
  | zero =>
    intro fuel attempt last hfuel hfail hsucc hfix hle
    obtain ⟨n, rfl⟩ : ∃ n, fuel = n + 1 := ⟨fuel - 1, by omega⟩
    rw [Nat.add_zero] at hsucc ⊢
    simp only [stepLoop, executeStepRun_eq, execResultAt_success, hsucc, if_true]
    by_cases hcond : ((env.mode != PipelineMode.dryRun &&
        (st.id == PipelineStepId.format || decide (attempt > 0))) = true)
    · rw [if_pos hcond]
      obtain ⟨sEvs, hsr, hsne⟩ := stageRelevantChanges_ok env rules hstage
      rw [hsr]
      refine ⟨_, rfl, ?_, ?_⟩
      · rw [countExec_append, countExec_append, countExec_own_singleton,
          countExec_eq_zero_of_no_exec (fun e he => by
            simp only [List.mem_singleton] at he; subst he; rfl),
          countExec_eq_zero_of_no_exec hsne]
      · exact execOnly_append (execOnly_append
          (execOnly_own_exec st.id st.command attempt)
          (execOnly_cons_non_exec rfl (execOnly_nil st.id)))
          (execOnly_of_no_exec hsne)
    · rw [if_neg hcond]
      refine ⟨_, rfl, ?_, ?_⟩
      · rw [countExec_append, countExec_own_singleton,
          countExec_eq_zero_of_no_exec (fun e he => by
            simp only [List.mem_singleton] at he; subst he; rfl)]
      · exact execOnly_append (execOnly_own_exec st.id st.command attempt)
          (execOnly_cons_non_exec rfl (execOnly_nil st.id))
  | succ k ih =>
    intro fuel attempt last hfuel hfail hsucc hfix hle
    obtain ⟨n, rfl⟩ : ∃ n, fuel = n + 1 := ⟨fuel - 1, by omega⟩
    have hf0 : (env.exec st.id attempt).success = false := by
      have := hfail 0 (by omega)
      rwa [Nat.add_zero] at this
    simp only [stepLoop, executeStepRun_eq, execResultAt_success, hf0,
      Bool.false_eq_true, if_false]
    have hge : ¬ attempt ≥ maxA := by omega
    rw [if_neg hge]
    have hfx0 : (attemptAiFix env rules st.id (execResultAt env st.id attempt)).2
        = true := by
      have := hfix 0 (by omega)
      rwa [Nat.add_zero] at this
    rcases hfixeq : attemptAiFix env rules st.id (execResultAt env st.id attempt)
      with ⟨fixEvs, fixApplied⟩
    have hfixevs : fixEvs =
        (attemptAiFix env rules st.id (execResultAt env st.id attempt)).1 := by
      rw [hfixeq]
    obtain rfl : fixApplied = true := by
      rw [hfixeq] at hfx0
      exact hfx0
    simp only [Bool.not_true, Bool.false_eq_true, if_false, hm]
    have hbe : (PipelineMode.execute == PipelineMode.dryRun) = false := rfl
    simp only [hbe, Bool.false_eq_true, if_false]
    obtain ⟨evs, heq, hcount, honly⟩ :=
      ih n (attempt + 1) (some (execResultAt env st.id attempt)) (by omega)
        (fun j hj => by
          have := hfail (j + 1) (by omega)
          rwa [show attempt + (j + 1) = attempt + 1 + j from by omega] at this)
        (by
          have := hsucc
          rwa [show attempt + (k + 1) = attempt + 1 + k from by omega] at this)
        (fun j hj => by
          have := hfix (j + 1) (by omega)
          rwa [show attempt + (j + 1) = attempt + 1 + j from by omega] at this)
        (by omega)
    rw [show attempt + (k + 1) = attempt + 1 + k from by omega, heq]
    refine ⟨_, rfl, ?_, ?_⟩
    · rw [countExec_append, countExec_append, countExec_append,
        countExec_own_singleton,
        countExec_eq_zero_of_no_exec (by
          rw [hfixevs]
          exact attemptAiFix_no_exec env rules st.id _),
        countExec_eq_zero_of_no_exec (fun e he => by
          simp only [List.mem_singleton] at he; subst he; rfl),
        hcount]
      omega
    · refine execOnly_append (execOnly_append (execOnly_append
        (execOnly_own_exec st.id st.command attempt) ?_) ?_) honly
      · refine execOnly_of_no_exec ?_
        rw [hfixevs]
        exact attemptAiFix_no_exec env rules st.id _
      · exact execOnly_cons_non_exec rfl (execOnly_nil st.id)

/-- C7: a step whose command never succeeds exhausts its retry budget;
with `abortOnFailure` set, `runPipeline`'s step loop returns the
`aborted` outcome with `failedStep` naming that step, and no later
step's command is executed (every executed command in the whole trace is
the failing step's own). -/
theorem exhausted_abort_on_failure_aborts (env : Env) (rules : List String)
    (step : StepDefinition) (rest : List StepDefinition)
    (hm : env.mode = PipelineMode.execute)
    (hcmd : jsTrim step.command ≠ "")
    (habort : env.config.pipelineAbortOnFailure = true)
    (hfail : ∀ a, (env.exec step.id a).success = false) :
    (runSteps env rules (step :: rest)).2 =
      .ok { status := .aborted, failedStep := some step.id,
            suppressAutoPush := false } ∧
    ExecOnly step.id (runSteps env rules (step :: rest)).1 := by
  have hbeq : (jsTrim step.command == "") = false := by
    simpa using hcmd
  obtain ⟨loopEvs, lastR, att, heq, honly⟩ :=
    stepLoop_all_fail env rules { step with command := jsTrim step.command }
      env.config.pipelineMaxAiFixAttempts hm (fun a => hfail a)
      (env.config.pipelineMaxAiFixAttempts + 1) 0 none
  have hrs : runStep env rules step =
      (Event.stepStart step.id 0 :: loopEvs ++
        [Event.stepComplete (lastR.getD
          { step := step.id, success := false, stdout := "", stderr := "",
            attempt := att }),
         Event.logMsg ("Pipeline aborted on " ++ step.id.name)],
       .ok (some { status := .aborted, failedStep := some step.id,
                   suppressAutoPush := false })) := by
    simp only [runStep, hbeq, Bool.false_eq_true, if_false]
    rw [heq]
    simp only [Bool.false_eq_true, if_false, habort, if_true]
  constructor
  · simp only [runSteps]
    rw [hrs]
  · simp only [runSteps]
    rw [hrs]
    refine execOnly_cons_non_exec rfl ?_
    refine execOnly_append honly ?_
    intro e he
    simp only [List.mem_cons, List.mem_singleton, List.not_mem_nil, or_false] at he
    rcases he with rfl | rfl <;> intro hx <;> exact absurd hx (by simp [isExecEvent])

/-- C8: a step whose command never succeeds exhausts its retry budget;
with `abortOnFailure` off and the decision resolver answering
commit-anyway, the step loop returns the `commit-anyway` outcome with
`suppressAutoPush = true` and a commit annotation that contains the
failed step's name. -/
theorem exhausted_commit_anyway_outcome (env : Env) (rules : List String)
    (step : StepDefinition) (rest : List StepDefinition)
    (resolver : PipelineDecisionEvent → Except Unit PipelineDecision)
    (hm : env.mode = PipelineMode.execute)
    (hcmd : jsTrim step.command ≠ "")
    (habort : env.config.pipelineAbortOnFailure = false)
    (hres : env.onDecisionRequired = some resolver)
    (hcommit : ∀ ev, resolver ev = .ok .commitAnyway)
    (hfail : ∀ a, (env.exec step.id a).success = false) :
    (runSteps env rules (step :: rest)).2 =
      .ok { status := .commitAnyway, failedStep := some step.id,
            commitAnnotation := some (commitAnnotationFor step.id),
            suppressAutoPush := true } ∧
    ∃ l r, commitAnnotationFor step.id = l ++ step.id.name ++ r := by
  have hbeq : (jsTrim step.command == "") = false := by
    simpa using hcmd
  obtain ⟨loopEvs, lastR, att, heq, honly⟩ :=
    stepLoop_all_fail env rules { step with command := jsTrim step.command }
      env.config.pipelineMaxAiFixAttempts hm (fun a => hfail a)
      (env.config.pipelineMaxAiFixAttempts + 1) 0 none
  refine ⟨?_, "[pipeline failed at ", ": see OUTPUT > CommitSmith]", rfl⟩
  simp only [runSteps, runStep, hbeq, Bool.false_eq_true, if_false]
  rw [heq]
  simp only [Bool.false_eq_true, if_false, habort, if_true, resolveDecision, hres,
    hcommit]

/-- C9: a step whose command never succeeds exhausts its retry budget;
an absent decision resolver (or one that throws) is treated exactly as
an `abort` answer, so the step loop returns the `aborted` outcome with
`failedStep` naming that step. -/
theorem absent_or_throwing_resolver_aborts (env : Env) (rules : List String)
    (step : StepDefinition) (rest : List StepDefinition)
    (hm : env.mode = PipelineMode.execute)
    (hcmd : jsTrim step.command ≠ "")
    (habort : env.config.pipelineAbortOnFailure = false)
    (hres : env.onDecisionRequired = none ∨
      ∃ resolver, env.onDecisionRequired = some resolver ∧
        ∀ ev, resolver ev = .error ())
    (hfail : ∀ a, (env.exec step.id a).success = false) :
    (∀ ev, (resolveDecision env ev).2 = PipelineDecision.abort) ∧
    (runSteps env rules (step :: rest)).2 =
      .ok { status := .aborted, failedStep := some step.id,
            suppressAutoPush := false } := by
  have habortdec : ∀ ev, (resolveDecision env ev).2 = PipelineDecision.abort := by
    intro ev
    rcases hres with h | ⟨resolver, h, hthrow⟩
    · simp [resolveDecision, h]
    · simp [resolveDecision, h, hthrow ev]
  refine ⟨habortdec, ?_⟩
  have hbeq : (jsTrim step.command == "") = false := by
    simpa using hcmd
  obtain ⟨loopEvs, lastR, att, heq, honly⟩ :=
    stepLoop_all_fail env rules { step with command := jsTrim step.command }
      env.config.pipelineMaxAiFixAttempts hm (fun a => hfail a)
      (env.config.pipelineMaxAiFixAttempts + 1) 0 none
  simp only [runSteps, runStep, hbeq, Bool.false_eq_true, if_false]
  rw [heq]
  rcases hres with h | ⟨resolver, h, hthrow⟩
  · simp only [Bool.false_eq_true, if_false, habort, resolveDecision, h]
  · simp only [Bool.false_eq_true, if_false, habort, resolveDecision, h, hthrow]

lemma isExecOf_false_of_ne {e : Event} {id1 id2 : PipelineStepId}
    (h1 : isExecOf id1 e = true) (h2 : id1 ≠ id2) : isExecOf id2 e = false := by
  cases e <;> simp only [isExecOf] at h1 ⊢
  rename_i s c a
  have : s = id1 := by simpa using h1
  subst this
  simpa using h2

lemma isExecOf_false_of_not_exec {e : Event} {id : PipelineStepId}
    (h : isExecEvent e = false) : isExecOf id e = false := by
  cases e <;> simp_all [isExecEvent, isExecOf]

lemma countExec_cons_non_exec (e0 : Event) (h : isExecEvent e0 = false)
    (l : List Event) (id : PipelineStepId) :
    countExec (e0 :: l) id = countExec l id := by
  simp [countExec, List.filter_cons, isExecOf_false_of_not_exec h]

/-- A step whose command fails `k` times, each failure followed by an
applied fix, and then succeeds, completes with `continue` after exactly
`k + 1` executions of its own command. -/
lemma runStep_retry_success (env : Env) (rules : List String)
    (step : StepDefinition) (k : Nat)
    (hm : env.mode = PipelineMode.execute) (hstage : env.stageOk = true)
    (hcmd : jsTrim step.command ≠ "")
    (hk : k ≤ env.config.pipelineMaxAiFixAttempts)
    (hfail : ∀ j, j < k → (env.exec step.id j).success = false)
    (hsucc : (env.exec step.id k).success = true)
    (hfix : ∀ j, j < k →
      (attemptAiFix env rules step.id (execResultAt env step.id j)).2 = true) :
    ∃ evs, runStep env rules step = (evs, .ok none) ∧
      countExec evs step.id = k + 1 ∧ ExecOnly step.id evs := by
  have hbeq : (jsTrim step.command == "") = false := by
    simpa using hcmd
  obtain ⟨evs, heq, hcount, honly⟩ :=
    stepLoop_succeeds env rules { step with command := jsTrim step.command }
      env.config.pipelineMaxAiFixAttempts hm hstage k
      (env.config.pipelineMaxAiFixAttempts + 1) 0 none (by omega)
      (fun j hj => by simpa using hfail j hj)
      (by simpa using hsucc)
      (fun j hj => by simpa using hfix j hj)
      (by omega)
  refine ⟨Event.stepStart step.id 0 :: evs, ?_, ?_, ?_⟩
  · simp only [runStep, hbeq, Bool.false_eq_true, if_false]
    rw [heq]
    rfl
  · rw [countExec_cons_non_exec (Event.stepStart step.id 0) rfl]
    exact hcount
  · exact execOnly_cons_non_exec rfl honly

/-- Steps that succeed on their first attempt (or are skipped for an
empty command) all complete, the loop finishes with the `completed`
outcome, and every executed command belongs to one of the steps. -/
lemma runSteps_all_success (env : Env) (rules : List String)
    (hm : env.mode = PipelineMode.execute) (hstage : env.stageOk = true) :
    ∀ steps : List StepDefinition,
      (∀ s ∈ steps, jsTrim s.command ≠ "" → (env.exec s.id 0).success = true) →
      ∃ evs, runSteps env rules steps =
        (evs, .ok { status := .completed, suppressAutoPush := false }) ∧
        ∀ e ∈ evs, isExecEvent e = true → ∃ s ∈ steps, isExecOf s.id e = true := by
  intro steps
  induction steps with
  | nil =>
    intro h
    exact ⟨[], rfl, by simp⟩
  | cons s ss ih =>
    intro h
    obtain ⟨evs2, heq2, hprop2⟩ := ih (fun t ht hc => h t (List.mem_cons_of_mem s ht) hc)
    by_cases hempty : (jsTrim s.command == "") = true
    · have hstepeq : runStep env rules s =
          ([Event.logMsg ("[" ++ formatStepLabel s.id ++ " ⏭️] "
            ++ s.dryRunSkipReason.getD "No command configured; skipping.")],
           .ok none) := by
        simp only [runStep, hempty, if_true]
      refine ⟨[Event.logMsg ("[" ++ formatStepLabel s.id ++ " ⏭️] "
          ++ s.dryRunSkipReason.getD "No command configured; skipping.")] ++ evs2,
        ?_, ?_⟩
      · simp only [runSteps]
        rw [hstepeq, heq2]
      · intro e he hex
        rcases List.mem_append.mp he with hl | hr
        · simp only [List.mem_singleton] at hl
          subst hl
          exact absurd hex (by simp [isExecEvent])
        · obtain ⟨t, ht, hof⟩ := hprop2 e hr hex
          exact ⟨t, List.mem_cons_of_mem s ht, hof⟩
    · have hcmd : jsTrim s.command ≠ "" := by
        simpa using hempty
      have hsucc := h s (List.mem_cons_self s ss) hcmd
      obtain ⟨evs1, heq1, hcount1, honly1⟩ :=
        runStep_retry_success env rules s 0 hm hstage hcmd (by omega)
          (fun j hj => absurd hj (Nat.not_lt_zero j)) hsucc
          (fun j hj => absurd hj (Nat.not_lt_zero j))
      refine ⟨evs1 ++ evs2, ?_, ?_⟩
      · simp only [runSteps]
        rw [heq1, heq2]
      · intro e he hex
        rcases List.mem_append.mp he with hl | hr
        · exact ⟨s, List.mem_cons_self s ss, honly1 e hl hex⟩
        · obtain ⟨t, ht, hof⟩ := hprop2 e hr hex
          exact ⟨t, List.mem_cons_of_mem s ht, hof⟩

/-- C6: in execute mode, a step failing on attempts `0..k-1` with every
intermediate fix applied and succeeding on attempt `k ≤ max` has its
command executed exactly `k + 1` times, and when every later step also
succeeds (or is skipped) the pipeline outcome is `completed`. -/
theorem fail_fix_succeed_executes_k_plus_one (env : Env) (rules : List String)
    (step : StepDefinition) (rest : List StepDefinition) (k : Nat)
    (hm : env.mode = PipelineMode.execute) (hstage : env.stageOk = true)
    (hcmd : jsTrim step.command ≠ "")
    (hk : k ≤ env.config.pipelineMaxAiFixAttempts)
    (hfail : ∀ j, j < k → (env.exec step.id j).success = false)
    (hsucc : (env.exec step.id k).success = true)
    (hfix : ∀ j, j < k →
      (attemptAiFix env rules step.id (execResultAt env step.id j)).2 = true)
    (hrest : ∀ s ∈ rest, jsTrim s.command ≠ "" → (env.exec s.id 0).success = true)
    (hid : ∀ s ∈ rest, s.id ≠ step.id) :
    (runSteps env rules (step :: rest)).2 =
      .ok { status := .completed, suppressAutoPush := false } ∧
    countExec (runSteps env rules (step :: rest)).1 step.id = k + 1 := by
  obtain ⟨evs1, heq1, hcount1, honly1⟩ :=
    runStep_retry_success env rules step k hm hstage hcmd hk hfail hsucc hfix
  obtain ⟨evs2, heq2, hprop2⟩ := runSteps_all_success env rules hm hstage rest hrest
  have hzero : countExec evs2 step.id = 0 := by
    refine countExec_eq_zero_of_other ?_
    intro e he
    by_cases hex : isExecEvent e = true
    · obtain ⟨t, ht, hof⟩ := hprop2 e he hex
      exact isExecOf_false_of_ne hof (hid t ht)
    · rw [Bool.not_eq_true] at hex
      exact isExecOf_false_of_not_exec hex
  have hfull : runSteps env rules (step :: rest) =
      (evs1 ++ evs2, .ok { status := .completed, suppressAutoPush := false }) := by
    simp only [runSteps]
    rw [heq1, heq2]
  rw [hfull]
  exact ⟨rfl, by rw [countExec_append, hcount1, hzero]⟩

lemma execResultAt_stdout (env : Env) (id : PipelineStepId) (a : Nat) :
    (execResultAt env id a).stdout = (env.exec id a).stdout := rfl

lemma execResultAt_stderr (env : Env) (id : PipelineStepId) (a : Nat) :
    (execResultAt env id a).stderr = (env.exec id a).stderr := rfl

/-- Whenever the retry loop runs at least one iteration, the step's
command is executed at the entry attempt number. -/
lemma stepLoop_first_exec_mem (env : Env) (rules : List String)
    (st : StepDefinition) (maxA : Nat) :
    ∀ fuel attempt last, 1 ≤ fuel →
      Event.execCmd st.id st.command attempt ∈
        (stepLoop env rules st maxA fuel attempt last).1 := by
  intro fuel attempt last hfuel
  obtain ⟨n, rfl⟩ : ∃ n, fuel = n + 1 := ⟨fuel - 1, by omega⟩
  simp only [stepLoop, executeStepRun_eq]
  repeat' split
  all_goals simp [List.mem_append]

/-- C3 amended: after a failing attempt 0 with a usable patch, in
execute mode the engine increments the attempt counter and reruns the
step's command (attempt 1 is executed), while in dry-run mode the step
is marked successful immediately — reported at attempt 1 — and the
command is executed exactly once, never rerun. -/
theorem fix_applied_rerun_behavior (env : Env) (rules : List String)
    (step : StepDefinition)
    (hcmd : jsTrim step.command ≠ "")
    (hmax : 1 ≤ env.config.pipelineMaxAiFixAttempts)
    (hfail : (env.exec step.id 0).success = false)
    (hfix : (attemptAiFix env rules step.id (execResultAt env step.id 0)).2 = true) :
    (env.mode = PipelineMode.execute →
      Event.execCmd step.id (jsTrim step.command) 1 ∈ (runStep env rules step).1) ∧
    (env.mode = PipelineMode.dryRun →
      (runStep env rules step).2 = .ok none ∧
      countExec (runStep env rules step).1 step.id = 1) := by
  have hbeq : (jsTrim step.command == "") = false := by
    simpa using hcmd
  have hge : ¬ (0 : Nat) ≥ env.config.pipelineMaxAiFixAttempts := by omega
  rcases hfixeq : attemptAiFix env rules step.id (execResultAt env step.id 0)
    with ⟨fixEvs, fixApplied⟩
  have hfixevs : fixEvs =
      (attemptAiFix env rules step.id (execResultAt env step.id 0)).1 := by
    rw [hfixeq]
  obtain rfl : fixApplied = true := by
    rw [hfixeq] at hfix
    exact hfix
  constructor
  · intro hm
    rcases hinner : stepLoop env rules { step with command := jsTrim step.command }
        env.config.pipelineMaxAiFixAttempts env.config.pipelineMaxAiFixAttempts 1
        (some (execResultAt env step.id 0)) with ⟨innerEvs, innerRes⟩
    have hmem1 : Event.execCmd step.id (jsTrim step.command) 1 ∈ innerEvs := by
      have h2 := stepLoop_first_exec_mem env rules
        { step with command := jsTrim step.command }
        env.config.pipelineMaxAiFixAttempts env.config.pipelineMaxAiFixAttempts 1
        (some (execResultAt env step.id 0)) hmax
      rw [hinner] at h2
      exact h2
    have hloop : stepLoop env rules { step with command := jsTrim step.command }
        env.config.pipelineMaxAiFixAttempts
        (env.config.pipelineMaxAiFixAttempts + 1) 0 none
        = ([Event.execCmd step.id (jsTrim step.command) 0] ++ fixEvs ++
            [Event.stepStart step.id 1] ++ innerEvs, innerRes) := by
      simp only [stepLoop, executeStepRun_eq, execResultAt_success, hfail,
        Bool.false_eq_true, if_false, Nat.zero_add]
      rw [if_neg hge, hfixeq]
      simp only [Bool.not_true, Bool.false_eq_true, if_false, hm]
      have hbe : (PipelineMode.execute == PipelineMode.dryRun) = false := rfl
      simp only [hbe, Bool.false_eq_true, if_false, Nat.zero_add]
      rw [hinner]
    simp only [runStep, hbeq, Bool.false_eq_true, if_false]
    rw [hloop]
    rcases innerRes with e | ⟨succ2, lastR2, att2⟩
    · simp [List.mem_append, hmem1]
    · cases succ2
      · simp only []
        repeat' split
        all_goals simp [List.mem_append, hmem1]
      · simp [List.mem_append, hmem1]
  · intro hm
    have hloop : stepLoop env rules { step with command := jsTrim step.command }
        env.config.pipelineMaxAiFixAttempts
        (env.config.pipelineMaxAiFixAttempts + 1) 0 none
        = ([Event.execCmd step.id (jsTrim step.command) 0] ++ fixEvs ++
            [Event.stepComplete
              ({ step := step.id, success := true,
                 stdout := (env.exec step.id 0).stdout,
                 stderr := (env.exec step.id 0).stderr,
                 attempt := 1 } : StepResult)],
           .ok (true, some (execResultAt env step.id 0), 0)) := by
      simp only [stepLoop, executeStepRun_eq, execResultAt_success,
        execResultAt_stdout, execResultAt_stderr, hfail,
        Bool.false_eq_true, if_false, Nat.zero_add]
      rw [if_neg hge, hfixeq]
      simp only [Bool.not_true, Bool.false_eq_true, if_false, hm]
      rfl
    simp only [runStep, hbeq, Bool.false_eq_true, if_false]
    rw [hloop]
    refine ⟨rfl, ?_⟩
    show countExec (Event.stepStart step.id 0 ::
      ([Event.execCmd step.id (jsTrim step.command) 0] ++ fixEvs ++
        [Event.stepComplete
          ({ step := step.id, success := true,
             stdout := (env.exec step.id 0).stdout,
             stderr := (env.exec step.id 0).stderr,
             attempt := 1 } : StepResult)])) step.id = 1
    rw [countExec_cons_non_exec (Event.stepStart step.id 0) rfl,
      countExec_append, countExec_append, countExec_own_singleton,
      countExec_eq_zero_of_no_exec (by
        rw [hfixevs]
        exact attemptAiFix_no_exec env rules step.id _),
      countExec_eq_zero_of_no_exec (fun e he => by
        simp only [List.mem_singleton] at he
        subst he
        rfl)]

namespace GitModel

lemma lookup_eq_none_of_not_mem {m : List (String × FsEntry)} {p : String}
    (h : p ∉ keys m) : lookupEntry m p = none := by
  induction m with
  | nil => rfl
  | cons q rest ih =>
    simp only [keys, List.map_cons, List.mem_cons, not_or] at h
    have hq : (p == q.1) = false := by
      simpa using h.1
    simp only [lookupEntry, List.lookup, hq]
    exact ih (by simpa [keys] using h.2)

lemma mem_keys_of_lookup {m : List (String × FsEntry)} {p : String} {e : FsEntry}
    (h : lookupEntry m p = some e) : p ∈ keys m := by
  by_contra hc
  rw [lookup_eq_none_of_not_mem hc] at h
  exact Option.noConfusion h

lemma lookup_isSome_of_mem {m : List (String × FsEntry)} {p : String}
    (h : p ∈ keys m) : (lookupEntry m p).isSome = true := by
  induction m with
  | nil => simp [keys] at h
  | cons q rest ih =>
    simp only [keys, List.map_cons, List.mem_cons] at h
    by_cases hq : (p == q.1) = true
    · simp [lookupEntry, List.lookup, hq]
    · rw [Bool.not_eq_true] at hq
      simp only [lookupEntry, List.lookup, hq]
      rcases h with h | h
      · exact absurd h (by simpa using hq)
      · exact ih h

lemma lookup_isSome_iff_mem {m : List (String × FsEntry)} {p : String} :
    (lookupEntry m p).isSome = true ↔ p ∈ keys m := by
  constructor
  · intro h
    rcases ho : lookupEntry m p with _ | e
    · rw [ho] at h
      simp at h
    · exact mem_keys_of_lookup ho
  · exact lookup_isSome_of_mem

lemma lookup_filterKeys (m : List (String × FsEntry)) (g : String → Bool)
    (p : String) :
    lookupEntry (filterKeys m g) p =
      if g p then lookupEntry m p else none := by
  unfold filterKeys
  induction m with
  | nil => simp [lookupEntry]
  | cons q rest ih =>
    by_cases hq : (p == q.1) = true
    · have hpq : p = q.1 := by simpa using hq
      by_cases hg : g q.1 = true
      · rw [List.filter_cons_of_pos (by simpa using hg)]
        simp [lookupEntry, List.lookup, hq, hpq, hg]
      · rw [List.filter_cons_of_neg (by simpa using hg)]
        rw [Bool.not_eq_true] at hg
        rw [ih]
        simp [hpq, hg]
    · rw [Bool.not_eq_true] at hq
      by_cases hg : g q.1 = true
      · rw [List.filter_cons_of_pos (by simpa using hg)]
        simp only [lookupEntry, List.lookup, hq]
        exact ih
      · rw [List.filter_cons_of_neg (by simpa using hg)]
        rw [ih]
        simp only [lookupEntry, List.lookup, hq]

lemma lookup_append (m1 m2 : List (String × FsEntry)) (p : String) :
    lookupEntry (m1 ++ m2) p =
      match lookupEntry m1 p with
      | some e => some e
      | none => lookupEntry m2 p := by
  induction m1 with
  | nil => simp [lookupEntry]
  | cons q rest ih =>
    by_cases hq : (p == q.1) = true
    · simp [lookupEntry, List.cons_append, List.lookup, hq]
    · rw [Bool.not_eq_true] at hq
      simp only [lookupEntry, List.cons_append, List.lookup, hq] at ih ⊢
      exact ih

end GitModel

namespace GitModel

lemma lookup_applyChange (m : List (String × FsEntry)) (k : String)
    (v : Option FsEntry) (p : String) :
    lookupEntry (applyChange m (k, v)) p = if p = k then v else lookupEntry m p := by
  cases v with
  | none =>
    simp only [applyChange]
    rw [lookup_filterKeys m (fun s => s != k) p]
    by_cases hpk : p = k
    · simp [hpk]
    · simp [hpk, beq_eq_false_iff_ne, hpk]
  | some e =>
    simp only [applyChange]
    by_cases hpk : p = k
    · subst hpk
      simp [lookupEntry, List.lookup]
    · have hb : (p == k) = false := by simpa using hpk
      simp only [lookupEntry, List.lookup, hb]
      have := lookup_filterKeys m (fun s => s != k) p
      simp only [lookupEntry] at this
      rw [this]
      simp [hb, hpk]

lemma patch_lookup_eq_none_of_not_mem {patch : List (String × Option FsEntry)}
    {p : String} (h : p ∉ patch.map Prod.fst) : patch.lookup p = none := by
  induction patch with
  | nil => rfl
  | cons q rest ih =>
    simp only [List.map_cons, List.mem_cons, not_or] at h
    have hq : (p == q.1) = false := by simpa using h.1
    simp only [List.lookup, hq]
    exact ih h.2

lemma lookup_applyPatchEntries (m : List (String × FsEntry))
    (patch : List (String × Option FsEntry)) (hn : (patch.map Prod.fst).Nodup)
    (p : String) :
    lookupEntry (applyPatchEntries m patch) p =
      match patch.lookup p with
      | some v => v
      | none => lookupEntry m p := by
  induction patch generalizing m with
  | nil => rfl
  | cons q rest ih =>
    rcases q with ⟨k, v⟩
    simp only [List.map_cons, List.nodup_cons] at hn
    obtain ⟨hq1, hq2⟩ := hn
    simp only [applyPatchEntries, List.foldl_cons]
    rw [show List.foldl applyChange (applyChange m (k, v)) rest =
        applyPatchEntries (applyChange m (k, v)) rest from rfl]
    rw [ih (applyChange m (k, v)) hq2]
    by_cases hpq : (p == k) = true
    · have hp : p = k := by simpa using hpq
      have hnone : rest.lookup p = none := by
        rw [hp]
        exact patch_lookup_eq_none_of_not_mem hq1
      rw [hnone]
      simp only [List.lookup, hpq]
      rw [lookup_applyChange m k v p]
      rw [if_pos hp]
    · rw [Bool.not_eq_true] at hpq
      simp only [List.lookup, hpq]
      rcases rest.lookup p with _ | w
      · rw [lookup_applyChange m k v p]
        rw [if_neg (by simpa using hpq)]
      · rfl

end GitModel

namespace GitModel

lemma lookup_map_pair (l : List String) (f : String → Option FsEntry)
    (hn : l.Nodup) (q : String) :
    ((l.map (fun p => (p, f p))).lookup q) = if q ∈ l then some (f q) else none := by
  induction l with
  | nil => simp
  | cons p ps ih =>
    simp only [List.nodup_cons] at hn
    obtain ⟨hp, hps⟩ := hn
    simp only [List.map_cons, List.lookup]
    by_cases hqp : (q == p) = true
    · have : q = p := by simpa using hqp
      subst this
      simp [hqp]
    · rw [Bool.not_eq_true] at hqp
      have hne : q ≠ p := by simpa using hqp
      simp only [hqp]
      rw [ih hps]
      by_cases hmem : q ∈ ps
      · simp [hmem, hne]
      · simp [hmem, hne]

lemma nodup_keys_map_pair (l : List String) (f : String → Option FsEntry)
    (hn : l.Nodup) : ((l.map (fun p => (p, f p))).map Prod.fst).Nodup := by
  rw [List.map_map]
  have : (Prod.fst ∘ fun p => (p, f p)) = fun (p : String) => p := rfl
  rw [this]
  simpa using hn

lemma lookup_gitDiffCached (r : GitRepo) (p : String) :
    (gitDiffCached r).lookup p =
      if lookupEntry r.head p ≠ lookupEntry r.index p then
        some (lookupEntry r.index p)
      else none := by
  have hn : (((keys r.head ++ keys r.index).dedup).filter
      (fun p => decide (lookupEntry r.head p ≠ lookupEntry r.index p))).Nodup :=
    (List.nodup_dedup _).filter _
  rw [gitDiffCached, lookup_map_pair _ _ hn p]
  by_cases hne : lookupEntry r.head p ≠ lookupEntry r.index p
  · rw [if_pos hne, if_pos ?_]
    rw [List.mem_filter]
    refine ⟨?_, by simpa using hne⟩
    rw [List.mem_dedup, List.mem_append]
    rcases hh : lookupEntry r.head p with _ | e
    · rcases hi : lookupEntry r.index p with _ | e2
      · exact absurd (hh.trans hi.symm) hne
      · exact Or.inr (mem_keys_of_lookup hi)
    · exact Or.inl (mem_keys_of_lookup hh)
  · rw [if_neg hne, if_neg ?_]
    rw [List.mem_filter]
    rintro ⟨-, hdec⟩
    exact hne (by simpa using hdec)

lemma lookup_gitDiffUnstaged (r : GitRepo) (p : String) :
    (gitDiffUnstaged r).lookup p =
      if (lookupEntry r.index p).isSome = true ∧
          lookupEntry r.worktree p ≠ lookupEntry r.index p then
        some (lookupEntry r.worktree p)
      else none := by
  have hn : (((keys r.index).dedup).filter
      (fun p => decide (lookupEntry r.worktree p ≠ lookupEntry r.index p))).Nodup :=
    (List.nodup_dedup _).filter _
  rw [gitDiffUnstaged, lookup_map_pair _ _ hn p]
  by_cases hc : (lookupEntry r.index p).isSome = true ∧
      lookupEntry r.worktree p ≠ lookupEntry r.index p
  · rw [if_pos hc, if_pos ?_]
    rw [List.mem_filter]
    refine ⟨?_, by simpa using hc.2⟩
    rw [List.mem_dedup]
    exact lookup_isSome_iff_mem.mp hc.1
  · rw [if_neg hc, if_neg ?_]
    rw [List.mem_filter]
    rintro ⟨hmem, hdec⟩
    rw [List.mem_dedup] at hmem
    exact hc ⟨lookup_isSome_iff_mem.mpr hmem, by simpa using hdec⟩

lemma lookup_filterMap_entry (l : List String) (g : String → Option FsEntry)
    (hn : l.Nodup) (q : String) :
    ((l.filterMap (fun p => (g p).map (fun e => (p, e)))).lookup q) =
      if q ∈ l then g q else none := by
  induction l with
  | nil => simp
  | cons p ps ih =>
    simp only [List.nodup_cons] at hn
    obtain ⟨hp, hps⟩ := hn
    rw [List.filterMap_cons]
    rcases hg : g p with _ | e
    · simp only [Option.map_none']
      rw [ih hps]
      by_cases hqp : q = p
      · subst hqp
        simp [hp, hg]
      · simp [hqp]
    · simp only [Option.map_some']
      simp only [List.lookup]
      by_cases hqp : (q == p) = true
      · have : q = p := by simpa using hqp
        subst this
        simp [hqp, hg]
      · rw [Bool.not_eq_true] at hqp
        have hne : q ≠ p := by simpa using hqp
        simp only [hqp]
        rw [ih hps]
        simp [hne]

lemma lookup_filterMap_opt (l : List String) (g : String → Option FsEntry)
    (hn : l.Nodup) (q : String) :
    ((l.filterMap (fun p => (g p).map (fun e => (p, some e)))).lookup q) =
      if q ∈ l then (g q).map some else none := by
  induction l with
  | nil => simp
  | cons p ps ih =>
    simp only [List.nodup_cons] at hn
    obtain ⟨hp, hps⟩ := hn
    rw [List.filterMap_cons]
    rcases hg : g p with _ | e
    · simp only [Option.map_none']
      rw [ih hps]
      by_cases hqp : q = p
      · subst hqp
        simp [hp, hg]
      · simp [hqp]
    · simp only [Option.map_some']
      simp only [List.lookup]
      by_cases hqp : (q == p) = true
      · have : q = p := by simpa using hqp
        subst this
        simp [hqp, hg]
      · rw [Bool.not_eq_true] at hqp
        have hne : q ≠ p := by simpa using hqp
        simp only [hqp]
        rw [ih hps]
        simp [hne]

lemma keys_filterMap_opt_sublist (l : List String) (g : String → Option FsEntry) :
    List.Sublist
      ((l.filterMap (fun p => (g p).map (fun e => (p, some e)))).map Prod.fst) l := by
  induction l with
  | nil => simp
  | cons p ps ih =>
    rw [List.filterMap_cons]
    rcases hg : g p with _ | e
    · simp only [Option.map_none']
      exact ih.cons p
    · simp only [Option.map_some', List.map_cons]
      exact ih.cons₂ p

end GitModel

namespace GitModel

lemma lookup_guard_index (r1 : GitRepo) (patch : List (String × Option FsEntry))
    (hn : (patch.map Prod.fst).Nodup) (p : String) :
    lookupEntry (if patch.isEmpty then r1 else applyIndexPatch r1 patch).index p =
      match patch.lookup p with
      | some v => v
      | none => lookupEntry r1.index p := by
  by_cases he : patch.isEmpty = true
  · obtain rfl : patch = [] := List.isEmpty_iff.mp he
    rw [if_pos he]
    rfl
  · rw [if_neg he]
    exact lookup_applyPatchEntries r1.index patch hn p

lemma lookup_guard_index_worktree (r1 : GitRepo)
    (patch : List (String × Option FsEntry))
    (hn : (patch.map Prod.fst).Nodup) (p : String) :
    lookupEntry (if patch.isEmpty then r1 else applyIndexPatch r1 patch).worktree p =
      match patch.lookup p with
      | some v => v
      | none => lookupEntry r1.worktree p := by
  by_cases he : patch.isEmpty = true
  · obtain rfl : patch = [] := List.isEmpty_iff.mp he
    rw [if_pos he]
    rfl
  · rw [if_neg he]
    exact lookup_applyPatchEntries r1.worktree patch hn p

lemma lookup_guard_worktree (r2 : GitRepo)
    (patch : List (String × Option FsEntry))
    (hn : (patch.map Prod.fst).Nodup) (p : String) :
    lookupEntry (if patch.isEmpty then r2 else applyWorktreePatch r2 patch).worktree p =
      match patch.lookup p with
      | some v => v
      | none => lookupEntry r2.worktree p := by
  by_cases he : patch.isEmpty = true
  · obtain rfl : patch = [] := List.isEmpty_iff.mp he
    rw [if_pos he]
    rfl
  · rw [if_neg he]
    exact lookup_applyPatchEntries r2.worktree patch hn p

lemma guard_worktree_index (r2 : GitRepo) (patch : List (String × Option FsEntry)) :
    (if patch.isEmpty then r2 else applyWorktreePatch r2 patch).index = r2.index := by
  by_cases he : patch.isEmpty = true
  · rw [if_pos he]
  · rw [if_neg he]
    rfl

lemma guard_index_head (r1 : GitRepo) (patch : List (String × Option FsEntry)) :
    (if patch.isEmpty then r1 else applyIndexPatch r1 patch).head = r1.head := by
  by_cases he : patch.isEmpty = true
  · rw [if_pos he]
  · rw [if_neg he]
    rfl

lemma nodup_keys_gitDiffCached (r : GitRepo) :
    ((gitDiffCached r).map Prod.fst).Nodup :=
  nodup_keys_map_pair _ _ ((List.nodup_dedup _).filter _)

lemma nodup_keys_gitDiffUnstaged (r : GitRepo) :
    ((gitDiffUnstaged r).map Prod.fst).Nodup :=
  nodup_keys_map_pair _ _ ((List.nodup_dedup _).filter _)

lemma nodup_lsFilesOthers (r : GitRepo) : (lsFilesOthers r).Nodup :=
  (List.nodup_dedup _).filter _

lemma isIgnoredPath_resetHard (r : GitRepo) (s : String) :
    isIgnoredPath (resetHard r) s = isIgnoredPath r s := rfl

/-- The r1 stage (`reset --hard` then `clean -fd`): the working tree
holds the `HEAD` entries plus exactly the untracked files protected by a
gitignore rule or the artifact-directory exclusion. -/
lemma r1_worktree_lookup (r : GitRepo) (p : String) :
    lookupEntry (cleanUntracked (resetHard r)).worktree p =
      match lookupEntry r.head p with
      | some e => some e
      | none =>
        if isIgnoredPath r p || isCommitSmithPath p then
          (if (lookupEntry r.index p).isNone then lookupEntry r.worktree p else none)
        else none := by
  simp only [cleanUntracked, resetHard, isIgnoredPath]
  rw [lookup_filterKeys, lookup_append, lookup_filterKeys]
  rcases hh : lookupEntry r.head p with _ | e
  · simp only [hh, Option.isNone_none, Bool.true_and, Bool.not_and, Bool.not_not]
  · simp [hh]

end GitModel

namespace GitModel

lemma mem_lsFilesOthers (r : GitRepo) (p : String) :
    p ∈ lsFilesOthers r ↔ (lookupEntry r.worktree p).isSome = true ∧
      (lookupEntry r.index p).isNone = true ∧ isIgnoredPath r p = false := by
  unfold lsFilesOthers
  rw [List.mem_filter, List.mem_dedup]
  constructor
  · rintro ⟨hmem, hcond⟩
    rw [Bool.and_eq_true] at hcond
    exact ⟨lookup_isSome_of_mem hmem, hcond.1, by simpa using hcond.2⟩
  · rintro ⟨hw, hi, hig⟩
    refine ⟨lookup_isSome_iff_mem.mp hw, ?_⟩
    rw [Bool.and_eq_true]
    exact ⟨hi, by simp [hig]⟩

/-- After the full restore of a snapshot captured from the same state,
the index lookups are unchanged. -/
lemma restore_index_lookup (r : GitRepo) (p : String) :
    lookupEntry (restoreRepoSnapshot r (captureRepoSnapshot r)).index p =
      lookupEntry r.index p := by
  simp only [restoreRepoSnapshot, captureRepoSnapshot]
  rw [guard_worktree_index]
  rw [lookup_guard_index _ _ (nodup_keys_gitDiffCached r) p]
  rw [lookup_gitDiffCached]
  have hr1 : (cleanUntracked (resetHard r)).index = r.head := rfl
  rw [hr1]
  by_cases hne : lookupEntry r.head p ≠ lookupEntry r.index p
  · rw [if_pos hne]
  · rw [if_neg hne]
    push_neg at hne
    exact hne

/-- After the full restore of a snapshot captured from the same state,
the working-tree lookups are unchanged, except that a gitignored
untracked copy shadowed by a staged deletion is dropped (exactly as a
real `reset --hard` clobbers it); that corner has no effect on status
output. -/
lemma restore_worktree_lookup (r : GitRepo) (p : String) :
    lookupEntry (restoreRepoSnapshot r (captureRepoSnapshot r)).worktree p =
      if (lookupEntry r.head p).isSome = true ∧
          (lookupEntry r.index p).isNone = true ∧ isIgnoredPath r p = true then
        none
      else lookupEntry r.worktree p := by
  have hcbn : (((lsFilesOthers r).filterMap (fun q =>
      (((lsFilesOthers r).filterMap
        (fun p => (lookupEntry r.worktree p).map (fun e => (p, e)))).lookup q).map
        (fun e => (q, some e)))).map Prod.fst).Nodup :=
    (nodup_lsFilesOthers r).sublist (keys_filterMap_opt_sublist _ _)
  simp only [restoreRepoSnapshot, captureRepoSnapshot]
  rw [lookup_applyPatchEntries _ _ hcbn p]
  rw [lookup_filterMap_opt _ _ (nodup_lsFilesOthers r) p]
  rw [lookup_filterMap_entry _ _ (nodup_lsFilesOthers r) p]
  rw [lookup_guard_worktree _ _ (nodup_keys_gitDiffUnstaged r) p]
  rw [lookup_gitDiffUnstaged]
  rw [lookup_guard_index_worktree _ _ (nodup_keys_gitDiffCached r) p]
  rw [lookup_gitDiffCached]
  rw [r1_worktree_lookup]
  by_cases hmem : p ∈ lsFilesOthers r
  · obtain ⟨hw, hi, hig⟩ := (mem_lsFilesOthers r p).mp hmem
    rcases hww : lookupEntry r.worktree p with _ | ew
    · rw [hww] at hw
      simp at hw
    · simp [hmem, hig]
  · rw [if_neg hmem]
    have hnot := fun hcontra => hmem ((mem_lsFilesOthers r p).mpr hcontra)
    simp only [Option.map_none']
    rcases hii : lookupEntry r.index p with _ | ei
    · rcases hhh : lookupEntry r.head p with _ | eh
      · rcases hww : lookupEntry r.worktree p with _ | ew
        · simp [hww]
        · have hig : isIgnoredPath r p = true := by
            by_contra hc
            rw [Bool.not_eq_true] at hc
            exact hnot ⟨by simp [hww], by simp [hii], hc⟩
          simp [hww, hii, hhh, hig]
      · rcases hww : lookupEntry r.worktree p with _ | ew
        · simp [hww, hii, hhh]
        · have hig : isIgnoredPath r p = true := by
            by_contra hc
            rw [Bool.not_eq_true] at hc
            exact hnot ⟨by simp [hww], by simp [hii], hc⟩
          simp [hww, hii, hhh, hig]
    · rcases hww : lookupEntry r.worktree p with _ | ew
      · simp [hww, hii]
      · by_cases hwi : ew = ei
        · subst hwi
          by_cases hh : lookupEntry r.head p = some ew <;> simp [hww, hii, hh]
        · simp [hww, hii, hwi]

end GitModel

namespace GitModel

lemma restore_head (r : GitRepo) (s : Snapshot) :
    (restoreRepoSnapshot r s).head = r.head := by
  simp only [restoreRepoSnapshot]
  by_cases h1 : s.stagedPatch.isEmpty = true <;>
    by_cases h2 : s.unstagedPatch.isEmpty = true <;>
    simp [h1, h2, applyWorktreePatch, applyIndexPatch, cleanUntracked, resetHard]

lemma restore_ignoredPaths (r : GitRepo) (s : Snapshot) :
    (restoreRepoSnapshot r s).ignoredPaths = r.ignoredPaths := by
  simp only [restoreRepoSnapshot]
  by_cases h1 : s.stagedPatch.isEmpty = true <;>
    by_cases h2 : s.unstagedPatch.isEmpty = true <;>
    simp [h1, h2, applyWorktreePatch, applyIndexPatch, cleanUntracked, resetHard]

/-- C2 core, pointwise: capturing and immediately restoring a snapshot
leaves every path's porcelain status code unchanged. -/
lemma statusCode_roundtrip (r : GitRepo) (p : String) :
    statusCode (restoreRepoSnapshot r (captureRepoSnapshot r)) p = statusCode r p := by
  have higp : isIgnoredPath (restoreRepoSnapshot r (captureRepoSnapshot r)) p =
      isIgnoredPath r p := by
    unfold isIgnoredPath
    rw [restore_ignoredPaths]
  simp only [statusCode]
  rw [restore_head, higp, restore_index_lookup, restore_worktree_lookup]
  by_cases hc : (lookupEntry r.head p).isSome = true ∧
      (lookupEntry r.index p).isNone = true ∧ isIgnoredPath r p = true
  · rw [if_pos hc]
    obtain ⟨hhs, his, higt⟩ := hc
    simp [his, higt, hhs]
  · rw [if_neg hc]

lemma statusCode_isSome_mem_candidates (r : GitRepo) (p : String)
    (hs : (statusCode r p).isSome = true) : p ∈ candidatePaths r := by
  unfold candidatePaths
  rw [List.mem_dedup, List.mem_append, List.mem_append]
  simp only [statusCode] at hs
  by_cases hi : (lookupEntry r.index p).isNone = true
  · rw [if_pos hi] at hs
    by_cases hw : ((lookupEntry r.worktree p).isSome && !isIgnoredPath r p) = true
    · rw [Bool.and_eq_true] at hw
      exact Or.inr ((@lookup_isSome_iff_mem r.worktree p).mp hw.1)
    · rw [if_neg hw] at hs
      by_cases hh : (lookupEntry r.head p).isSome = true
      · exact Or.inl (Or.inl ((@lookup_isSome_iff_mem r.head p).mp hh))
      · rw [if_neg hh] at hs
        simp at hs
  · have hsome : (lookupEntry r.index p).isSome = true := by
      rcases hx : lookupEntry r.index p with _ | e
      · rw [hx] at hi
        simp at hi
      · rfl
    exact Or.inl (Or.inr (lookup_isSome_iff_mem.mp hsome))

/-- Round trip of the whole porcelain output: after
`restoreRepoSnapshot r (captureRepoSnapshot r)` the machine-readable
status output is byte-identical. -/
lemma porcelain_roundtrip (r : GitRepo) :
    porcelainStatus (restoreRepoSnapshot r (captureRepoSnapshot r)) =
      porcelainStatus r := by
  have hcode := statusCode_roundtrip r
  unfold porcelainStatus
  have hsets : ((candidatePaths (restoreRepoSnapshot r (captureRepoSnapshot r))).toFinset.filter
        (fun p => (statusCode (restoreRepoSnapshot r (captureRepoSnapshot r)) p).isSome = true)) =
      ((candidatePaths r).toFinset.filter (fun p => (statusCode r p).isSome = true)) := by
    apply Finset.ext
    intro q
    rw [Finset.mem_filter, Finset.mem_filter, List.mem_toFinset, List.mem_toFinset]
    constructor
    · rintro ⟨-, hcq⟩
      rw [hcode q] at hcq
      exact ⟨statusCode_isSome_mem_candidates r q hcq, hcq⟩
    · rintro ⟨-, hcq⟩
      refine ⟨statusCode_isSome_mem_candidates _ q ?_, ?_⟩
      · rw [hcode q]
        exact hcq
      · rw [hcode q]
        exact hcq
  rw [hsets]
  congr 1
  apply List.map_congr_left
  intro q hq
  rw [hcode q]

end GitModel

/-- C2: for every repository state containing staged changes, unstaged
changes, untracked files, untracked directories, empty directories and
at least one symlink, running `restoreRepoSnapshot` on the snapshot
just produced by `captureRepoSnapshot` is a round trip: the
machine-readable porcelain status of the repository afterwards is
byte-identical to its value before the capture. -/
theorem capture_restore_porcelain_roundtrip (r : GitModel.GitRepo)
    (_hstaged : GitModel.gitDiffCached r ≠ [])
    (_hunstaged : GitModel.gitDiffUnstaged r ≠ [])
    (_huntracked : GitModel.lsFilesOthers r ≠ [])
    (_hudirs : GitModel.statusUntrackedDirs r ≠ [])
    (_hempty : GitModel.collectEmptyDirectories r ≠ [])
    (_hsym : ∃ p t, GitModel.lookupEntry r.worktree p =
      some (GitModel.FsEntry.symlink t)) :
    GitModel.porcelainStatus
        (GitModel.restoreRepoSnapshot r (GitModel.captureRepoSnapshot r)) =
      GitModel.porcelainStatus r :=
  GitModel.porcelain_roundtrip r

theorem capture_restore_porcelain_roundtrip_witness :
    GitModel.porcelainStatus
        (GitModel.restoreRepoSnapshot repoW (GitModel.captureRepoSnapshot repoW)) =
      GitModel.porcelainStatus repoW :=
  capture_restore_porcelain_roundtrip repoW (by decide) (by decide) (by decide)
    (by decide) (by decide) ⟨"link", "tracked.txt", by decide⟩

theorem fix_applied_rerun_behavior_witness :
    (c6Env.mode = PipelineMode.execute →
      Event.execCmd tcStep.id (jsTrim tcStep.command) 1 ∈
        (runStep c6Env [] tcStep).1) ∧
    (c6Env.mode = PipelineMode.dryRun →
      (runStep c6Env [] tcStep).2 = .ok none ∧
      countExec (runStep c6Env [] tcStep).1 tcStep.id = 1) :=
  fix_applied_rerun_behavior c6Env [] tcStep (by decide) (by decide) (by decide)
    (by decide)

theorem fail_fix_succeed_executes_k_plus_one_witness :
    (runSteps c6Env [] [tcStep]).2 =
      .ok { status := .completed, suppressAutoPush := false } ∧
    countExec (runSteps c6Env [] [tcStep]).1 tcStep.id = 1 + 1 :=
  fail_fix_succeed_executes_k_plus_one c6Env [] tcStep [] 1 rfl rfl (by decide)
    (by decide) (by decide) (by decide) (by decide)
    (fun s hs => absurd hs (List.not_mem_nil s))
    (fun s hs => absurd hs (List.not_mem_nil s))

theorem exhausted_abort_on_failure_aborts_witness :
    (runSteps c7Env [] [tcStep, testsStep]).2 =
      .ok { status := .aborted, failedStep := some tcStep.id,
            suppressAutoPush := false } ∧
    ExecOnly tcStep.id (runSteps c7Env [] [tcStep, testsStep]).1 :=
  exhausted_abort_on_failure_aborts c7Env [] tcStep [testsStep] rfl (by decide)
    rfl (fun a => rfl)

theorem exhausted_commit_anyway_outcome_witness :
    (runSteps c8Env [] [tcStep, testsStep]).2 =
      .ok { status := .commitAnyway, failedStep := some tcStep.id,
            commitAnnotation := some (commitAnnotationFor tcStep.id),
            suppressAutoPush := true } ∧
    ∃ l r, commitAnnotationFor tcStep.id = l ++ tcStep.id.name ++ r :=
  exhausted_commit_anyway_outcome c8Env [] tcStep [testsStep]
    (fun _ => Except.ok PipelineDecision.commitAnyway) rfl (by decide) rfl rfl
    (fun ev => rfl) (fun a => rfl)

theorem absent_or_throwing_resolver_aborts_witness :
    (∀ ev, (resolveDecision c9Env ev).2 = PipelineDecision.abort) ∧
    (runSteps c9Env [] [tcStep, testsStep]).2 =
      .ok { status := .aborted, failedStep := some tcStep.id,
            suppressAutoPush := false } :=
  absent_or_throwing_resolver_aborts c9Env [] tcStep [testsStep] rfl (by decide)
    rfl (Or.inl rfl) (fun a => rfl)
